import Mathlib

/-!
Verification of the delta-sync core of the quorum-shared repository.

The definitions below are a shallow embedding of the TypeScript sources:
  - src/sync/types.ts and src/sync/utils.ts (digests, diff engine, delta
    builders, chunking),
  - the SyncService class (payload cache, XOR manifest hash, delta
    assembly, session cleanup),
  - src/utils/encoding.ts (bytesToHex),
  - src/types/message.ts (message content variants).

SHA-256 comes from the external library noble-hashes, which is not part of
this repository; it is therefore modelled as a parameter: every definition
that hashes strings takes an argument H : String -> String standing for
computeHash (hex encoded SHA-256 of the UTF-8 bytes), and the message-id
hash used by the XOR accumulator takes Hid : String -> Bytes32 standing
for sha256 of the UTF-8 bytes. No theorem below depends on properties of
SHA-256 itself.

JavaScript Map objects are modelled by JsMap: an association list with
insertion-order iteration, overwrite-in-place set, and first-match get,
which is exactly the observable behaviour of Map for the operations the
sync core uses.
-/

/-- Bytes of a Uint8Array entry: a natural number below 256. -/
abbrev Byte := Fin 256

/-- A 32-byte buffer, as used for the XOR manifest hash accumulator. -/
abbrev Bytes32 := Fin 32 → Byte

/-- XOR of two bytes. On a Uint8Array the JS engine stores the result of
the bitwise XOR modulo 256; since XOR of two values below 256 is below
256, the truncation is the identity and the bound is carried in the type. -/
def byteXor (a b : Byte) : Byte :=
  ⟨a.val ^^^ b.val, by
    have := Nat.xor_lt_two_pow (n := 8) a.isLt b.isLt
    simpa using this⟩

/-- JavaScript string-or-string-array value, as in the text field of a
post message. -/
inductive StrOrList where
  | str (s : String)
  | list (l : List String)
deriving DecidableEq, Repr

/-- Canonicalisation used by computeContentHash: an array is joined with
newline characters, a plain string is used as is. -/
def StrOrList.canon : StrOrList → String
  | .str s => s
  | .list l => String.intercalate "\n" l

/-- Tagged message content union from src/types/message.ts. The extra
constructor named unknown stands for a runtime value whose type tag is
none of the fifteen known tags; the TypeScript switch statement in
computeContentHash matches no case for such a value. -/
inductive MessageContent where
  | post (senderId : String) (text : StrOrList) (repliesToMessageId : Option String)
  | embed (senderId : String) (imageUrl videoUrl repliesToMessageId : Option String)
  | sticker (senderId stickerId : String) (repliesToMessageId : Option String)
  | editMessage (senderId originalMessageId : String) (editedText : StrOrList) (editedAt : Nat)
  | removeMessage (senderId removeMessageId : String)
  | join (senderId : String)
  | leave (senderId : String)
  | kick (senderId : String)
  | event (senderId text : String)
  | updateProfile (senderId displayName userIcon : String)
  | mute (senderId targetUserId action muteId : String)
  | pin (senderId targetMessageId action : String)
  | reaction (senderId messageId reactionStr : String)
  | removeReaction (senderId messageId reactionStr : String)
  | deleteConversation (senderId : String)
  | unknown (senderId ctype : String)
deriving DecidableEq, Repr

/-- Reaction record on a message. -/
structure Reaction where
  emojiId : String
  spaceId : String
  emojiName : String
  count : Nat
  memberIds : List String
deriving DecidableEq, Repr

/-- Message record from src/types/message.ts, restricted to the fields the
sync core reads (the remaining fields - nonce, mentions, digestAlgorithm,
lastModifiedHash, signature data - are never inspected by any embedded
function; the serialized size of the whole record is abstracted by the
size parameter of chunkMessages). -/
structure Message where
  channelId : String
  spaceId : String
  messageId : String
  createdDate : Nat
  modifiedDate : Nat
  content : MessageContent
  reactions : List Reaction
deriving DecidableEq, Repr

/-- Member record (SpaceMember) restricted to the fields the sync core
reads. Optional TypeScript fields are Option values. -/
structure SpaceMember where
  address : String
  display_name : Option String
  profile_image : Option String
  inbox_address : String
deriving DecidableEq, Repr

/-- Compact message reference for sync comparison. -/
structure MessageDigest where
  messageId : String
  createdDate : Nat
  contentHash : String
  modifiedDate : Option Nat
deriving DecidableEq, Repr

/-- Compact reaction reference for sync comparison. -/
structure ReactionDigest where
  messageId : String
  emojiId : String
  count : Nat
  membersHash : String
deriving DecidableEq, Repr

/-- Manifest of all messages in a channel. -/
structure SyncManifest where
  spaceId : String
  channelId : String
  messageCount : Nat
  oldestTimestamp : Nat
  newestTimestamp : Nat
  digests : List MessageDigest
  reactionDigests : List ReactionDigest
deriving DecidableEq, Repr

/-- Delta response containing only needed messages. -/
structure MessageDelta where
  spaceId : String
  channelId : String
  newMessages : List Message
  updatedMessages : List Message
  deletedMessageIds : List String
deriving DecidableEq, Repr

/-- One entry of a reaction delta. -/
structure ReactionChange where
  messageId : String
  emojiId : String
  memberIds : List String
deriving DecidableEq, Repr

/-- Delta response for reactions only. -/
structure ReactionDelta where
  spaceId : String
  channelId : String
  added : List ReactionChange
  removed : List ReactionChange
deriving DecidableEq, Repr

/-- Compact member reference. -/
structure MemberDigest where
  address : String
  inboxAddress : String
  displayNameHash : String
  iconHash : String
deriving DecidableEq, Repr

/-- Member delta containing only changes. -/
structure MemberDelta where
  spaceId : String
  members : List SpaceMember
  removedAddresses : List String
deriving DecidableEq, Repr

/-- Peer map entry for the group ratchet. -/
structure PeerEntry where
  peerId : Nat
  publicKey : String
  identityPublicKey : Option String
  signedPrePublicKey : Option String
deriving DecidableEq, Repr

/-- Peer map delta. -/
structure PeerMapDelta where
  spaceId : String
  added : List PeerEntry
  updated : List PeerEntry
  removed : List Nat
deriving DecidableEq, Repr

/-- Tombstone for a deleted message. -/
structure DeletedMessageTombstone where
  messageId : String
  spaceId : String
  channelId : String
  deletedAt : Nat
deriving DecidableEq, Repr

/-- Summary of sync data for comparison. The manifestHash field is
optional in the TypeScript interface. -/
structure SyncSummary where
  memberCount : Nat
  messageCount : Nat
  newestMessageTimestamp : Nat
  oldestMessageTimestamp : Nat
  manifestHash : Option String
deriving DecidableEq, Repr

/-- The sync-delta payload. The constant type tag is omitted; the optional
isFinal flag is modelled as Bool since every consumer only tests its
truthiness and every producer sets it explicitly. -/
structure SyncDeltaPayload where
  messageDelta : Option MessageDelta
  reactionDelta : Option ReactionDelta
  memberDelta : Option MemberDelta
  peerMapDelta : Option PeerMapDelta
  isFinal : Bool
deriving DecidableEq, Repr

/-- Candidate from a sync-info response. -/
structure SyncCandidate where
  inboxAddress : String
  summary : SyncSummary
deriving DecidableEq, Repr

/-- Active sync session state. The timeout handle is host owned and
carries no data relevant to the session map, so it is omitted. -/
structure SyncSession where
  spaceId : String
  channelId : String
  expiry : Nat
  candidates : List SyncCandidate
  inProgress : Bool
  syncTarget : Option String
deriving DecidableEq, Repr

/-- Association-list model of a JavaScript Map: entries iterate in
insertion order, set overwrites in place, get returns the first (unique)
match. -/
structure JsMap (κ α : Type) where
  entries : List (κ × α)
deriving DecidableEq, Repr

namespace JsMap

variable {κ α : Type} [DecidableEq κ]

/-- Map.has: whether a key is present. -/
def has (m : JsMap κ α) (k : κ) : Bool :=
  m.entries.any (fun e => decide (e.1 = k))

/-- Map.get: the value stored under a key, if any. -/
def get (m : JsMap κ α) (k : κ) : Option α :=
  (m.entries.find? (fun e => decide (e.1 = k))).map (·.2)

/-- Map.set: overwrite in place when the key exists, append otherwise. -/
def set (m : JsMap κ α) (k : κ) (v : α) : JsMap κ α :=
  if m.has k then
    ⟨m.entries.map (fun e => if e.1 = k then (k, v) else e)⟩
  else
    ⟨m.entries ++ [(k, v)]⟩

/-- Map.delete: drop the entry for a key. -/
def del (m : JsMap κ α) (k : κ) : JsMap κ α :=
  ⟨m.entries.filter (fun e => !decide (e.1 = k))⟩

/-- Map.values in iteration order. -/
def values (m : JsMap κ α) : List α :=
  m.entries.map (·.2)

/-- Map.keys in iteration order. -/
def keys (m : JsMap κ α) : List κ :=
  m.entries.map (·.1)

/-- Map.size. -/
def size (m : JsMap κ α) : Nat :=
  m.entries.length

/-- The new Map(list) constructor: set every pair in order. -/
def ofList (l : List (κ × α)) : JsMap κ α :=
  l.foldl (fun m e => m.set e.1 e.2) ⟨[]⟩

end JsMap

/-- The JS expression x || an-empty-default on an optional string: the
empty string and a missing value both give the empty string. -/
def orEmpty : Option String → String
  | some s => s
  | none => ""

/-- Reply suffix of the canonical content string: appended only when
repliesToMessageId is truthy (present and non-empty). -/
def replySuffix : Option String → String
  | some r => if r = "" then "" else ":reply:" ++ r
  | none => ""

/-- Canonical content string of computeContentHash from sync/utils.ts:
senderId and type tag, then the variant-specific suffix built by the
switch statement. A value whose type tag is outside the union matches no
case, so its canonical string is the bare prefix. -/
def contentCanonical (content : MessageContent) : String :=
  match content with
  | .post senderId text reply =>
      s!"{senderId}:post:{text.canon}" ++ replySuffix reply
  | .embed senderId imageUrl videoUrl reply =>
      let iu := orEmpty imageUrl
      let vu := orEmpty videoUrl
      s!"{senderId}:embed:{iu}:{vu}" ++ replySuffix reply
  | .sticker senderId stickerId reply =>
      s!"{senderId}:sticker:{stickerId}" ++ replySuffix reply
  | .editMessage senderId originalMessageId editedText editedAt =>
      s!"{senderId}:edit-message:{originalMessageId}:{editedText.canon}:{editedAt}"
  | .removeMessage senderId removeMessageId =>
      s!"{senderId}:remove-message:{removeMessageId}"
  | .join senderId => s!"{senderId}:join"
  | .leave senderId => s!"{senderId}:leave"
  | .kick senderId => s!"{senderId}:kick"
  | .event senderId text => s!"{senderId}:event:{text}"
  | .updateProfile senderId displayName userIcon =>
      s!"{senderId}:update-profile:{displayName}:{userIcon}"
  | .mute senderId targetUserId action muteId =>
      s!"{senderId}:mute:{targetUserId}:{action}:{muteId}"
  | .pin senderId targetMessageId action =>
      s!"{senderId}:pin:{targetMessageId}:{action}"
  | .reaction senderId messageId reactionStr =>
      s!"{senderId}:reaction:{messageId}:{reactionStr}"
  | .removeReaction senderId messageId reactionStr =>
      s!"{senderId}:remove-reaction:{messageId}:{reactionStr}"
  | .deleteConversation senderId => s!"{senderId}:delete-conversation"
  | .unknown senderId ctype => s!"{senderId}:{ctype}"

/-- The fifteen type tags of the MessageContent union. -/
def knownContentTypes : List String :=
  ["post", "embed", "sticker", "edit-message", "remove-message", "join",
   "leave", "kick", "event", "update-profile", "mute", "pin", "reaction",
   "remove-reaction", "delete-conversation"]

/-- Hash of the canonical message content, parametric in the string hash
H (computeHash of sync/utils.ts, an external SHA-256). -/
def computeContentHash (H : String → String) (message : Message) : String :=
  H (contentCanonical message.content)

/-- createMessageDigest from sync/utils.ts: modifiedDate is kept only when
it differs from createdDate. -/
def createMessageDigest (H : String → String) (message : Message) : MessageDigest :=
  { messageId := message.messageId
    createdDate := message.createdDate
    contentHash := computeContentHash H message
    modifiedDate :=
      if message.modifiedDate ≠ message.createdDate then some message.modifiedDate
      else none }

/-- createReactionDigest from sync/utils.ts: one digest per reaction, with
the members hash over the sorted member ids. -/
def createReactionDigest (H : String → String) (messageId : String)
    (reactions : List Reaction) : List ReactionDigest :=
  reactions.map (fun r =>
    { messageId
      emojiId := r.emojiId
      count := r.count
      membersHash := H (String.intercalate "," (r.memberIds.mergeSort (· ≤ ·))) })

/-- createMemberDigest from sync/utils.ts: hashes of the display name and
of the profile image, missing fields hashed as the empty string. -/
def createMemberDigest (H : String → String) (member : SpaceMember) : MemberDigest :=
  { address := member.address
    inboxAddress := orEmpty (some member.inbox_address)
    displayNameHash := H (orEmpty member.display_name)
    iconHash := H (orEmpty member.profile_image) }

/-- Result of computeMessageDiff. -/
structure MessageDiffResult where
  missingIds : List String
  outdatedIds : List String
  extraIds : List String
deriving DecidableEq, Repr

/-- Effective modification time of a digest: modifiedDate when present and
non zero, otherwise createdDate; this is the JS expression
digest.modifiedDate || digest.createdDate. -/
def effModified (d : MessageDigest) : Nat :=
  match d.modifiedDate with
  | some t => if t = 0 then d.createdDate else t
  | none => d.createdDate

/-- Loop of computeMessageDiff over the entries of the their-side map:
ids absent from our map are missing; ids present with a different content
hash and a strictly newer effective modification time are outdated. -/
def messageDiffLoop (ourMap : JsMap String MessageDigest) :
    List (String × MessageDigest) → List String × List String
  | [] => ([], [])
  | (id, theirDigest) :: rest =>
    let r := messageDiffLoop ourMap rest
    match ourMap.get id with
    | none => (id :: r.1, r.2)
    | some ourDigest =>
      if ourDigest.contentHash ≠ theirDigest.contentHash ∧
          effModified ourDigest < effModified theirDigest then
        (r.1, id :: r.2)
      else r

/-- computeMessageDiff from sync/utils.ts. -/
def computeMessageDiff (ourManifest theirManifest : SyncManifest) : MessageDiffResult :=
  let ourDigests := JsMap.ofList (ourManifest.digests.map (fun d => (d.messageId, d)))
  let theirDigests := JsMap.ofList (theirManifest.digests.map (fun d => (d.messageId, d)))
  let r := messageDiffLoop ourDigests theirDigests.entries
  let extraIds := (ourDigests.entries.filter (fun e => !theirDigests.has e.1)).map (·.1)
  { missingIds := r.1, outdatedIds := r.2, extraIds }

/-- Result of computeMemberDiff. -/
structure MemberDiffResult where
  missingAddresses : List String
  outdatedAddresses : List String
  extraAddresses : List String
deriving DecidableEq, Repr

/-- Loop of computeMemberDiff over the their-side entries. -/
def memberDiffLoop (ourMap : JsMap String MemberDigest) :
    List (String × MemberDigest) → List String × List String
  | [] => ([], [])
  | (address, theirDigest) :: rest =>
    let (miss, outd) := memberDiffLoop ourMap rest
    match ourMap.get address with
    | none => (address :: miss, outd)
    | some ourDigest =>
      if ourDigest.displayNameHash ≠ theirDigest.displayNameHash ∨
          ourDigest.iconHash ≠ theirDigest.iconHash then
        (miss, address :: outd)
      else (miss, outd)

/-- computeMemberDiff from sync/utils.ts. -/
def computeMemberDiff (ourDigests theirDigests : List MemberDigest) : MemberDiffResult :=
  let ourMap := JsMap.ofList (ourDigests.map (fun d => (d.address, d)))
  let theirMap := JsMap.ofList (theirDigests.map (fun d => (d.address, d)))
  let (missingAddresses, outdatedAddresses) := memberDiffLoop ourMap theirMap.entries
  let extraAddresses := (ourMap.entries.filter (fun e => !theirMap.has e.1)).map (·.1)
  { missingAddresses, outdatedAddresses, extraAddresses }

/-- Result of computePeerDiff. -/
structure PeerDiffResult where
  missingPeerIds : List Nat
  extraPeerIds : List Nat
deriving DecidableEq, Repr

/-- computePeerDiff from sync/utils.ts: set difference over peer ids. -/
def computePeerDiff (ourPeerIds theirPeerIds : List Nat) : PeerDiffResult :=
  { missingPeerIds := theirPeerIds.filter (fun id => !ourPeerIds.contains id)
    extraPeerIds := ourPeerIds.filter (fun id => !theirPeerIds.contains id) }

/-- buildMessageDelta from sync/utils.ts: materialise full records for the
extra and outdated ids and attach the tombstones of this channel. -/
def buildMessageDelta (spaceId channelId : String) (diff : MessageDiffResult)
    (messageMap : JsMap String Message)
    (tombstones : List DeletedMessageTombstone) : MessageDelta :=
  { spaceId, channelId
    newMessages := diff.extraIds.filterMap (fun id => messageMap.get id)
    updatedMessages := diff.outdatedIds.filterMap (fun id => messageMap.get id)
    deletedMessageIds :=
      (tombstones.filter (fun t =>
        decide (t.spaceId = spaceId) && decide (t.channelId = channelId))).map
        (·.messageId) }

/-- buildReactionDelta from sync/utils.ts: all reactions of the listed
messages are additions; the removed list is always empty. -/
def buildReactionDelta (spaceId channelId : String)
    (messageMap : JsMap String Message) (messageIds : List String) : ReactionDelta :=
  { spaceId, channelId
    added := messageIds.flatMap (fun messageId =>
      match messageMap.get messageId with
      | some message =>
        message.reactions.map (fun r =>
          { messageId, emojiId := r.emojiId, memberIds := r.memberIds })
      | none => [])
    removed := [] }

/-- buildMemberDelta from sync/utils.ts: full records for the missing and
outdated addresses; removedAddresses is always empty. -/
def buildMemberDelta (spaceId : String) (diff : MemberDiffResult)
    (memberMap : JsMap String SpaceMember) : MemberDelta :=
  { spaceId
    members := (diff.missingAddresses ++ diff.outdatedAddresses).filterMap
      (fun addr => memberMap.get addr)
    removedAddresses := [] }

/-- Maximum chunk size for message transmission: five mebibytes. -/
def MAX_CHUNK_SIZE : Nat := 5 * 1024 * 1024

/-- Loop of chunkMessages. The accumulator holds the finished chunks, the
chunk under construction and its running byte size. An oversized message
flushes the current chunk and goes into a chunk of its own; otherwise the
current chunk is flushed first whenever adding the message would push it
over the cap. -/
def chunkLoop (size : Message → Nat) :
    List Message → List (List Message) → List Message → Nat → List (List Message)
  | [], chunks, currentChunk, _ =>
    if currentChunk.isEmpty then chunks else chunks ++ [currentChunk]
  | msg :: rest, chunks, currentChunk, currentSize =>
    let msgSize := size msg
    if msgSize > MAX_CHUNK_SIZE then
      let chunks1 := if currentChunk.isEmpty then chunks else chunks ++ [currentChunk]
      chunkLoop size rest (chunks1 ++ [[msg]]) [] 0
    else if currentSize + msgSize > MAX_CHUNK_SIZE ∧ ¬currentChunk.isEmpty then
      chunkLoop size rest (chunks ++ [currentChunk]) [msg] msgSize
    else
      chunkLoop size rest chunks (currentChunk ++ [msg]) (currentSize + msgSize)

/-- chunkMessages from sync/utils.ts, parametric in the serialized byte
size of a message (JSON.stringify(msg).length in the source, external to
the sync core). -/
def chunkMessages (size : Message → Nat) (messages : List Message) : List (List Message) :=
  chunkLoop size messages [] [] 0

/-- bytesToHex from src/utils/encoding.ts: each byte printed as two
lowercase hex digits (toString(16) padded to width two), concatenated. -/
def hexDigit (n : Nat) : Char :=
  if n < 10 then Char.ofNat (48 + n) else Char.ofNat (87 + n)

/-- Two-digit lowercase hex rendering of one byte. -/
def byteToHex (b : Byte) : String :=
  String.mk [hexDigit (b.val / 16), hexDigit (b.val % 16)]

/-- Hex rendering of the 32-byte accumulator, in index order. -/
def bytesToHex (bytes : Bytes32) : String :=
  String.join ((List.finRange 32).map (fun i => byteToHex (bytes i)))

/-- Stable insertion of a digest into a list sorted by createdDate; equal
keys keep their original relative order, matching the stable JS sort. -/
def insertByCreated (d : MessageDigest) : List MessageDigest → List MessageDigest
  | [] => [d]
  | e :: es =>
    if d.createdDate ≤ e.createdDate then d :: e :: es else e :: insertByCreated d es

/-- Stable sort of digests by createdDate ascending, modelling the JS
sort with comparator a.createdDate - b.createdDate. -/
def sortByCreated : List MessageDigest → List MessageDigest
  | [] => []
  | d :: ds => insertByCreated d (sortByCreated ds)

/-- The per-channel payload cache of SyncService. -/
structure SyncPayloadCache where
  spaceId : String
  channelId : String
  messageMap : JsMap String Message
  memberMap : JsMap String SpaceMember
  digestMap : JsMap String MessageDigest
  memberDigestMap : JsMap String MemberDigest
  oldestTimestamp : Nat
  newestTimestamp : Nat
  manifestHashBytes : Bytes32
deriving DecidableEq

/-- xorIntoHash from SyncService: bytewise XOR of a hash into the
accumulator. -/
def xorIntoHash (accumulator hash : Bytes32) : Bytes32 :=
  fun i => byteXor (accumulator i) (hash i)

/-- Minimum loop of buildPayloadCache: the JS accumulator starts at
Infinity, modelled as none, and each createdDate below the accumulator
replaces it. -/
def jsMinFold (l : List Nat) : Option Nat :=
  l.foldl
    (fun acc t =>
      match acc with
      | none => some t
      | some a => if t < a then some t else some a)
    none

/-- Maximum loop of buildPayloadCache: the accumulator starts at 0. -/
def jsMaxFold (l : List Nat) : Nat :=
  l.foldl (fun a t => if t > a then t else a) 0

/-- buildPayloadCache from SyncService: maps keyed by id, boundary
timestamps (0 and 0 for an empty message list), and the XOR of the id
hashes of every message. -/
def buildPayloadCache (H : String → String) (Hid : String → Bytes32)
    (spaceId channelId : String) (messages : List Message)
    (members : List SpaceMember) : SyncPayloadCache :=
  { spaceId, channelId
    messageMap := JsMap.ofList (messages.map (fun m => (m.messageId, m)))
    memberMap := JsMap.ofList (members.map (fun m => (m.address, m)))
    digestMap := JsMap.ofList (messages.map (fun m => (m.messageId, createMessageDigest H m)))
    memberDigestMap := JsMap.ofList (members.map (fun m => (m.address, createMemberDigest H m)))
    oldestTimestamp := (jsMinFold (messages.map (·.createdDate))).getD 0
    newestTimestamp := jsMaxFold (messages.map (·.createdDate))
    manifestHashBytes :=
      (messages.map (fun m => Hid m.messageId)).foldl xorIntoHash (fun _ => 0) }

/-- getManifestHash from SyncService: hex rendering of the accumulator. -/
def getManifestHash (cache : SyncPayloadCache) : String :=
  bytesToHex cache.manifestHashBytes

/-- getManifest from SyncService: digests sorted by createdDate ascending
and the reaction digests of every cached message. -/
def getManifest (H : String → String) (cache : SyncPayloadCache) : SyncManifest :=
  { spaceId := cache.spaceId
    channelId := cache.channelId
    messageCount := cache.digestMap.size
    oldestTimestamp := cache.oldestTimestamp
    newestTimestamp := cache.newestTimestamp
    digests := sortByCreated cache.digestMap.values
    reactionDigests := cache.messageMap.values.flatMap (fun msg =>
      if msg.reactions.isEmpty then []
      else createReactionDigest H msg.messageId msg.reactions) }

/-- getSummary from SyncService. -/
def getSummary (cache : SyncPayloadCache) : SyncSummary :=
  { memberCount := cache.memberDigestMap.size
    messageCount := cache.digestMap.size
    newestMessageTimestamp := cache.newestTimestamp
    oldestMessageTimestamp := cache.oldestTimestamp
    manifestHash := some (getManifestHash cache) }

/-- getMemberDigests from SyncService. -/
def getMemberDigests (cache : SyncPayloadCache) : List MemberDigest :=
  cache.memberDigestMap.values

/-- updateCacheWithMessage from SyncService, on a present cache: replace
the message and its digest, widen the boundary timestamps, and XOR the id
hash in only when the id is new. -/
def updateCacheWithMessage (H : String → String) (Hid : String → Bytes32)
    (cache : SyncPayloadCache) (message : Message) : SyncPayloadCache :=
  let isNew := !cache.messageMap.has message.messageId
  { cache with
    messageMap := cache.messageMap.set message.messageId message
    digestMap := cache.digestMap.set message.messageId (createMessageDigest H message)
    oldestTimestamp :=
      if message.createdDate < cache.oldestTimestamp then message.createdDate
      else cache.oldestTimestamp
    newestTimestamp :=
      if message.createdDate > cache.newestTimestamp then message.createdDate
      else cache.newestTimestamp
    manifestHashBytes :=
      if isNew then xorIntoHash cache.manifestHashBytes (Hid message.messageId)
      else cache.manifestHashBytes }

/-- recalculateTimestamps from SyncService: full recomputation of the
boundary timestamps from the message map. -/
def recalculateTimestamps (cache : SyncPayloadCache) : SyncPayloadCache :=
  { cache with
    oldestTimestamp :=
      if cache.messageMap.size = 0 then 0
      else (jsMinFold (cache.messageMap.values.map (·.createdDate))).getD 0
    newestTimestamp := jsMaxFold (cache.messageMap.values.map (·.createdDate)) }

/-- removeCacheMessage from SyncService, on a present cache: a no-op when
the id is absent; otherwise drop the entries, XOR the id hash back out,
and recalculate the boundaries when the removed message sat on one. -/
def removeCacheMessage (Hid : String → Bytes32) (cache : SyncPayloadCache)
    (messageId : String) : SyncPayloadCache :=
  match cache.messageMap.get messageId with
  | none => cache
  | some message =>
    let cache1 :=
      { cache with
        messageMap := cache.messageMap.del messageId
        digestMap := cache.digestMap.del messageId
        manifestHashBytes := xorIntoHash cache.manifestHashBytes (Hid messageId) }
    if message.createdDate = cache.oldestTimestamp ∨
        message.createdDate = cache.newestTimestamp then
      recalculateTimestamps cache1
    else cache1

/-- updateCacheWithMember from SyncService, on a present cache. -/
def updateCacheWithMember (H : String → String) (cache : SyncPayloadCache)
    (member : SpaceMember) : SyncPayloadCache :=
  { cache with
    memberMap := cache.memberMap.set member.address member
    memberDigestMap := cache.memberDigestMap.set member.address (createMemberDigest H member) }

/-- One sync-delta payload for a message chunk, as assembled inside the
chunk loop of buildSyncDelta: the chunk is split back into new and
updated messages, tombstoned ids ride only on the last chunk, the
reaction delta rides only on the last chunk and only when non-empty, and
isFinal starts out false. -/
def mkChunkPayload (spaceId channelId : String) (diff : MessageDiffResult)
    (deletedIds : List String) (rd : ReactionDelta) (isLast : Bool)
    (chunk : List Message) : SyncDeltaPayload :=
  { messageDelta := some
      { spaceId, channelId
        newMessages := chunk.filter (fun m => diff.extraIds.contains m.messageId)
        updatedMessages := chunk.filter (fun m => diff.outdatedIds.contains m.messageId)
        deletedMessageIds := if isLast then deletedIds else [] }
    reactionDelta := if isLast ∧ ¬rd.added.isEmpty then some rd else none
    memberDelta := none
    peerMapDelta := none
    isFinal := false }

/-- The chunk loop of buildSyncDelta: every chunk becomes a payload, the
last one marked isLast. -/
def chunkPayloads (spaceId channelId : String) (diff : MessageDiffResult)
    (deletedIds : List String) (rd : ReactionDelta) :
    List (List Message) → List SyncDeltaPayload
  | [] => []
  | [c] => [mkChunkPayload spaceId channelId diff deletedIds rd true c]
  | c :: c2 :: rest =>
    mkChunkPayload spaceId channelId diff deletedIds rd false c ::
      chunkPayloads spaceId channelId diff deletedIds rd (c2 :: rest)

/-- Mutation payloads[payloads.length - 1].isFinal = true. -/
def setLastFinal : List SyncDeltaPayload → List SyncDeltaPayload
  | [] => []
  | [p] => [{ p with isFinal := true }]
  | p :: q :: rest => p :: setLastFinal (q :: rest)

/-- Tail of buildSyncDelta after the message chunks are built: append the
trailing member and peer payload when there are member changes, peer map
additions, or no message chunks at all; otherwise mark the last message
chunk final; and fall back to a single empty final payload when nothing
was produced. -/
def assembleDeltaPayloads (emptyAll : Bool) (chunked : List SyncDeltaPayload)
    (memberDelta : MemberDelta) (peerMapDelta : PeerMapDelta) :
    List SyncDeltaPayload :=
  let payloads1 :=
    if ¬memberDelta.members.isEmpty ∨ ¬peerMapDelta.added.isEmpty ∨ emptyAll then
      chunked ++
        [{ messageDelta := none
           reactionDelta := none
           memberDelta := if ¬memberDelta.members.isEmpty then some memberDelta else none
           peerMapDelta := if ¬peerMapDelta.added.isEmpty then some peerMapDelta else none
           isFinal := true }]
    else if ¬chunked.isEmpty then setLastFinal chunked
    else chunked
  if payloads1.isEmpty then
    [{ messageDelta := none, reactionDelta := none, memberDelta := none
       peerMapDelta := none, isFinal := true }]
  else payloads1

/-- buildSyncDelta from SyncService, as a pure function of the payload
cache (the result of getPayloadCache for the requested space and channel)
and the tombstone list. Parametric in the string hash H and in the
serialized message size used by the chunker. -/
def buildSyncDelta (H : String → String) (size : Message → Nat)
    (cache : SyncPayloadCache) (tombstones : List DeletedMessageTombstone)
    (spaceId channelId : String) (theirManifest : SyncManifest)
    (theirMemberDigests : List MemberDigest) (theirPeerIds : List Nat)
    (ourPeerEntries : JsMap Nat PeerEntry) : List SyncDeltaPayload :=
  let ourPeerIds := ourPeerEntries.keys
  let ourManifest := getManifest H cache
  let ourMemberDigests := getMemberDigests cache
  let messageDiff := computeMessageDiff ourManifest theirManifest
  let memberDiff := computeMemberDiff theirMemberDigests ourMemberDigests
  let peerDiff := computePeerDiff theirPeerIds ourPeerIds
  let messageDelta :=
    buildMessageDelta spaceId channelId messageDiff cache.messageMap tombstones
  let reactionMessageIds := messageDiff.extraIds ++ messageDiff.outdatedIds
  let reactionDelta :=
    buildReactionDelta spaceId channelId cache.messageMap reactionMessageIds
  let memberDelta := buildMemberDelta spaceId memberDiff cache.memberMap
  let peerMapDelta : PeerMapDelta :=
    { spaceId
      added := peerDiff.extraPeerIds.filterMap (fun id => ourPeerEntries.get id)
      updated := []
      removed := [] }
  let allMessages := messageDelta.newMessages ++ messageDelta.updatedMessages
  let payloads0 :=
    if allMessages.isEmpty then []
    else
      chunkPayloads spaceId channelId messageDiff messageDelta.deletedMessageIds
        reactionDelta (chunkMessages size allMessages)
  assembleDeltaPayloads allMessages.isEmpty payloads0 memberDelta peerMapDelta

/-- The JS expression delta.messageDelta?.spaceId || delta.memberDelta?.spaceId
followed by the truthiness test if (spaceId): the space id used for
session cleanup, none when neither delta supplies a non-empty one. -/
def deltaCleanupSpace (delta : SyncDeltaPayload) : Option String :=
  let fromMessage : Option String :=
    match delta.messageDelta with
    | some md => if md.spaceId = "" then none else some md.spaceId
    | none => none
  match fromMessage with
  | some s => some s
  | none =>
    match delta.memberDelta with
    | some md => if md.spaceId = "" then none else some md.spaceId
    | none => none

/-- Effect of applySyncDelta on the session map of SyncService. The
storage writes performed by applyMessageDelta, applyReactionDelta and
applyMemberDelta go through the external StorageAdapter and never touch
the session map, so the session effect of applySyncDelta is exactly this
function: on a final delta, delete the session keyed by the space id
recovered from the message delta or, failing that, the member delta. -/
def applySyncDeltaSessions (sessions : JsMap String SyncSession)
    (delta : SyncDeltaPayload) : JsMap String SyncSession :=
  if delta.isFinal then
    match deltaCleanupSpace delta with
    | some spaceId => sessions.del spaceId
    | none => sessions
  else sessions

/-- A payload sequence has exactly one final payload and it is the last
one: the list splits as a prefix of non-final payloads followed by one
final payload. -/
def finalExactlyLast (ps : List SyncDeltaPayload) : Prop :=
  ∃ pre last, ps = pre ++ [last] ∧ last.isFinal = true ∧
    ∀ p ∈ pre, p.isFinal = false

/-- Every payload carrying a reaction delta is a message chunk and is the
last message chunk: it carries a message delta and every later payload
carries none. -/
def reactionOnlyLastChunk (ps : List SyncDeltaPayload) : Prop :=
  ∀ i : Fin ps.length, (ps.get i).reactionDelta.isSome = true →
    (ps.get i).messageDelta.isSome = true ∧
      ∀ j : Fin ps.length, i.val < j.val → (ps.get j).messageDelta = none

/-! Concrete sample values used by witnesses and counterexamples. The
sample hash functions are stand-ins for the external SHA-256; no theorem
relies on any property of theirs. -/

/-- Sample string hash: the identity. -/
def sampleH : String → String := fun s => s

/-- Sample id hash: every byte is the string length reduced mod 256. -/
def sampleHid : String → Bytes32 :=
  fun s => fun _ => ⟨s.length % 256, Nat.mod_lt _ (by norm_num)⟩

/-- Sample message with id a. -/
def msgA : Message :=
  { channelId := "c", spaceId := "s", messageId := "a", createdDate := 1000
    modifiedDate := 1000, content := .post "u" (.str "hi") none, reactions := [] }

/-- Sample message with id b. -/
def msgB : Message :=
  { channelId := "c", spaceId := "s", messageId := "b", createdDate := 2000
    modifiedDate := 2000, content := .post "u" (.str "yo") none, reactions := [] }

/-- Sample cache built from no messages and no members. -/
def sampleEmptyCache : SyncPayloadCache :=
  buildPayloadCache sampleH sampleHid "s" "c" [] []

/-- Sample empty manifest. -/
def sampleEmptyManifest : SyncManifest :=
  { spaceId := "s", channelId := "c", messageCount := 0, oldestTimestamp := 0
    newestTimestamp := 0, digests := [], reactionDigests := [] }

/-- Sample tombstone for the sample space and channel. -/
def sampleTombstone : DeletedMessageTombstone :=
  { messageId := "dead", spaceId := "s", channelId := "c", deletedAt := 5 }

/-- Sample session for the sample space. -/
def sampleSession : SyncSession :=
  { spaceId := "s", channelId := "c", expiry := 10, candidates := []
    inProgress := false, syncTarget := none }

/-- Sample session map holding the sample session. -/
def sampleSessions : JsMap String SyncSession :=
  JsMap.ofList [("s", sampleSession)]

/-- Sample sync-delta payload carrying only a peer map delta and the
final flag. -/
def samplePeerOnlyFinal : SyncDeltaPayload :=
  { messageDelta := none, reactionDelta := none, memberDelta := none
    peerMapDelta := some
      { spaceId := "s", added := [⟨1, "pk", none, none⟩], updated := [], removed := [] }
    isFinal := true }

/-- Sample final sync-delta payload carrying a message delta for the
sample space. -/
def sampleMessageFinal : SyncDeltaPayload :=
  { messageDelta := some
      { spaceId := "s", channelId := "c", newMessages := [], updatedMessages := []
        deletedMessageIds := [] }
    reactionDelta := none, memberDelta := none, peerMapDelta := none
    isFinal := true }

/-- Sample message whose content type tag lies outside the known union. -/
def msgUnknown : Message :=
  { msgA with content := .unknown "alice" "mystery" }

/-- Sample our-side manifest with two digests. -/
def sampleOurManifest : SyncManifest :=
  { spaceId := "s", channelId := "c", messageCount := 2, oldestTimestamp := 1
    newestTimestamp := 2
    digests := [⟨"x", 1, "h1", none⟩, ⟨"y", 2, "h2", none⟩]
    reactionDigests := [] }

/-- Sample their-side manifest sharing id y with a newer conflicting
digest and adding id z. -/
def sampleTheirManifest : SyncManifest :=
  { spaceId := "s", channelId := "c", messageCount := 2, oldestTimestamp := 2
    newestTimestamp := 3
    digests := [⟨"y", 2, "h3", some 5⟩, ⟨"z", 3, "h9", none⟩]
    reactionDigests := [] }

/-- Sample serialized-size function making every message one byte. -/
def sampleSizeSmall : Message → Nat := fun _ => 1

/-- Sample serialized-size function making every message oversized. -/
def sampleSizeBig : Message → Nat := fun _ => MAX_CHUNK_SIZE + 1

/-! Basic lemmas about the JsMap model. -/

namespace JsMap

variable {κ α : Type} [DecidableEq κ]

theorem has_iff_exists {m : JsMap κ α} {k : κ} :
    m.has k = true ↔ ∃ v, (k, v) ∈ m.entries := by
  unfold has
  simp only [List.any_eq_true, decide_eq_true_eq]
  constructor
  · rintro ⟨e, he, rfl⟩
    exact ⟨e.2, he⟩
  · rintro ⟨v, hv⟩
    exact ⟨(k, v), hv, rfl⟩

theorem get_eq_none_iff {m : JsMap κ α} {k : κ} :
    m.get k = none ↔ ∀ v, (k, v) ∉ m.entries := by
  unfold get
  simp only [Option.map_eq_none', List.find?_eq_none, decide_eq_true_eq]
  constructor
  · intro h v hv
    exact h (k, v) hv rfl
  · rintro h ⟨k', v⟩ hv rfl
    exact h v hv

theorem get_eq_none_iff_has {m : JsMap κ α} {k : κ} :
    m.get k = none ↔ m.has k = false := by
  rw [get_eq_none_iff]
  rcases h : m.has k with _ | _
  · simp only [Bool.false_eq_true, iff_true]
    intro v hv
    exact absurd (has_iff_exists.mpr ⟨v, hv⟩) (by simp [h])
  · simp only [Bool.true_eq_false, iff_false, not_forall, not_not]
    obtain ⟨v, hv⟩ := has_iff_exists.mp h
    exact ⟨v, by simpa using hv⟩

theorem get_eq_some_mem {m : JsMap κ α} {k : κ} {v : α} (h : m.get k = some v) :
    (k, v) ∈ m.entries := by
  unfold get at h
  rcases h' : m.entries.find? (fun e => decide (e.1 = k)) with _ | e
  · simp [h'] at h
  · have hm := List.mem_of_find?_eq_some h'
    have hp := List.find?_some h'
    simp only [decide_eq_true_eq] at hp
    simp only [h', Option.map_some'] at h
    obtain rfl := Option.some.inj h
    have he : (k, e.2) = e := by rw [← hp]
    rw [he]
    exact hm

theorem get_of_mem_of_nodup {m : JsMap κ α} {k : κ} {v : α}
    (hnd : (m.entries.map Prod.fst).Nodup) (hv : (k, v) ∈ m.entries) :
    m.get k = some v := by
  rcases hget : m.get k with _ | w
  · exact absurd hv (get_eq_none_iff.mp hget v)
  · have hw := get_eq_some_mem hget
    obtain ⟨i, hi, hiv⟩ := List.getElem_of_mem hv
    obtain ⟨j, hj, hjw⟩ := List.getElem_of_mem hw
    have hik : (m.entries.map Prod.fst).get ⟨i, by simpa using hi⟩ = k := by
      simp [hiv]
    have hjk : (m.entries.map Prod.fst).get ⟨j, by simpa using hj⟩ = k := by
      simp [hjw]
    rw [List.get_eq_getElem] at hik hjk
    have hij : i = j := (List.Nodup.getElem_inj_iff hnd).mp (hik.trans hjk.symm)
    subst hij
    have hvw : (k, v) = (k, w) := hiv.symm.trans hjw
    exact congrArg some (congrArg Prod.snd hvw).symm

theorem find?_map_overwrite (k : κ) (v : α) (l : List (κ × α))
    (hl : l.any (fun e => decide (e.1 = k)) = true) :
    (l.map (fun e => if e.1 = k then (k, v) else e)).find?
      (fun e => decide (e.1 = k)) = some (k, v) := by
  induction l with
  | nil => simp at hl
  | cons e rest ih =>
    by_cases he : e.1 = k
    · simp [List.find?, he]
    · have hrest : rest.any (fun e => decide (e.1 = k)) = true := by
        simp only [List.any_cons, Bool.or_eq_true, decide_eq_true_eq] at hl
        rcases hl with h1 | h1
        · exact absurd h1 he
        · exact h1
      simpa [List.find?, he] using ih hrest

theorem get_set_self (m : JsMap κ α) (k : κ) (v : α) :
    (m.set k v).get k = some v := by
  unfold set
  by_cases h : m.has k = true
  · rw [if_pos h]
    unfold get
    rw [find?_map_overwrite k v m.entries (by unfold has at h; exact h)]
    rfl
  · rw [if_neg h]
    unfold get
    rw [List.find?_append]
    have hnone : m.entries.find? (fun e => decide (e.1 = k)) = none := by
      rw [List.find?_eq_none]
      intro e he
      simp only [decide_eq_true_eq]
      intro hek
      refine h (has_iff_exists.mpr ⟨e.2, ?_⟩)
      have : (k, e.2) = e := by rw [← hek]
      rw [this]
      exact he
    simp [hnone, List.find?]

theorem any_key_map_overwrite (k k' : κ) (v : α) (l : List (κ × α)) :
    (l.map (fun e => if e.1 = k then (k, v) else e)).any
      (fun e => decide (e.1 = k')) = l.any (fun e => decide (e.1 = k')) := by
  induction l with
  | nil => rfl
  | cons e rest ih =>
    by_cases he : e.1 = k
    · by_cases hk : k = k' <;> simp [he, hk, ih]
    · simp [he, ih]

theorem has_set (m : JsMap κ α) (k k' : κ) (v : α) :
    (m.set k v).has k' = (m.has k' || decide (k' = k)) := by
  unfold set
  by_cases h : m.has k = true
  · rw [if_pos h]
    show (m.entries.map _).any _ = _
    rw [any_key_map_overwrite]
    by_cases hk : k' = k
    · subst hk
      unfold has at h ⊢
      simp [h]
    · simp [hk]
      rfl
  · rw [if_neg h]
    show (m.entries ++ [(k, v)]).any _ = _
    rw [List.any_append]
    unfold has
    by_cases hk : k' = k <;> simp [hk, eq_comm]

theorem get_del_self (m : JsMap κ α) (k : κ) :
    (m.del k).get k = none := by
  rw [get_eq_none_iff]
  intro v hv
  have h2 := List.of_mem_filter hv
  simp at h2

end JsMap

/-! Lemmas about the XOR accumulator. -/

theorem byteXor_cancel (a h : Byte) : byteXor (byteXor a h) h = a := by
  unfold byteXor
  apply Fin.ext
  show (a.val ^^^ h.val) ^^^ h.val = a.val
  rw [Nat.xor_assoc, Nat.xor_self, Nat.xor_zero]

theorem byteXor_right_comm (a h1 h2 : Byte) :
    byteXor (byteXor a h1) h2 = byteXor (byteXor a h2) h1 := by
  unfold byteXor
  apply Fin.ext
  show (a.val ^^^ h1.val) ^^^ h2.val = (a.val ^^^ h2.val) ^^^ h1.val
  rw [Nat.xor_assoc, Nat.xor_assoc, Nat.xor_comm h1.val]

theorem xorIntoHash_cancel (acc h : Bytes32) :
    xorIntoHash (xorIntoHash acc h) h = acc := by
  funext i
  exact byteXor_cancel (acc i) (h i)

theorem xorIntoHash_right_comm (acc h1 h2 : Bytes32) :
    xorIntoHash (xorIntoHash acc h1) h2 = xorIntoHash (xorIntoHash acc h2) h1 := by
  funext i
  exact byteXor_right_comm (acc i) (h1 i) (h2 i)

/-- Folding XOR over a list of hashes is invariant under permutation. -/
theorem foldl_xorIntoHash_perm {l1 l2 : List Bytes32} (p : l1.Perm l2) :
    ∀ acc : Bytes32, l1.foldl xorIntoHash acc = l2.foldl xorIntoHash acc := by
  induction p with
  | nil => intro acc; rfl
  | cons x _ ih =>
    intro acc
    simp only [List.foldl_cons]
    exact ih _
  | swap x y l =>
    intro acc
    simp only [List.foldl_cons]
    rw [xorIntoHash_right_comm]
  | trans _ _ ih1 ih2 =>
    intro acc
    exact (ih1 acc).trans (ih2 acc)

/-! Lemmas about the incremental cache operations. -/

theorem updateCacheWithMessage_mhb (H : String → String) (Hid : String → Bytes32)
    (cache : SyncPayloadCache) (m : Message) :
    (updateCacheWithMessage H Hid cache m).manifestHashBytes =
      if cache.messageMap.has m.messageId then cache.manifestHashBytes
      else xorIntoHash cache.manifestHashBytes (Hid m.messageId) := by
  unfold updateCacheWithMessage
  rcases h : cache.messageMap.has m.messageId <;> simp [h]

theorem updateCacheWithMessage_has (H : String → String) (Hid : String → Bytes32)
    (cache : SyncPayloadCache) (m : Message) (k : String) :
    (updateCacheWithMessage H Hid cache m).messageMap.has k =
      (cache.messageMap.has k || decide (k = m.messageId)) := by
  unfold updateCacheWithMessage
  exact JsMap.has_set _ _ _ _

theorem removeCacheMessage_mhb_of_present (Hid : String → Bytes32)
    (cache : SyncPayloadCache) (id : String) (m : Message)
    (h : cache.messageMap.get id = some m) :
    (removeCacheMessage Hid cache id).manifestHashBytes =
      xorIntoHash cache.manifestHashBytes (Hid id) := by
  unfold removeCacheMessage
  rw [h]
  dsimp only
  by_cases hb : m.createdDate = cache.oldestTimestamp ∨ m.createdDate = cache.newestTimestamp
  · rw [if_pos hb]
    rfl
  · rw [if_neg hb]

/-- The manifest hash accumulator after a fold of upserts: the initial
accumulator XORed with the id hash of every message whose id was not
already cached, provided the upserted ids are pairwise distinct. -/
theorem foldl_updateCache_mhb (H : String → String) (Hid : String → Bytes32) :
    ∀ (l : List Message) (cache : SyncPayloadCache),
      (l.map (·.messageId)).Nodup →
      (l.foldl (updateCacheWithMessage H Hid) cache).manifestHashBytes =
        ((l.filter (fun m => !cache.messageMap.has m.messageId)).map
          (fun m => Hid m.messageId)).foldl xorIntoHash cache.manifestHashBytes := by
  intro l
  induction l with
  | nil => intro cache _; rfl
  | cons m rest ih =>
    intro cache hnd
    have hndr : (rest.map (·.messageId)).Nodup := (List.nodup_cons.mp hnd).2
    rw [List.map_cons] at hnd
    have hmne : ∀ x ∈ rest, x.messageId ≠ m.messageId := by
      intro x hx hxe
      have hmem : m.messageId ∈ rest.map (·.messageId) := by
        rw [← hxe]
        exact List.mem_map_of_mem _ hx
      exact (List.nodup_cons.mp hnd).1 hmem
    have hfilter :
        rest.filter (fun x => !(updateCacheWithMessage H Hid cache m).messageMap.has x.messageId) =
          rest.filter (fun x => !cache.messageMap.has x.messageId) := by
      apply List.filter_congr
      intro x hx
      rw [updateCacheWithMessage_has]
      simp [decide_eq_false (hmne x hx)]
    rw [List.foldl_cons, ih _ hndr, hfilter]
    rcases h : cache.messageMap.has m.messageId with _ | _
    · simp only [List.filter_cons, h, Bool.not_false, if_pos, List.map_cons,
        List.foldl_cons]
      rw [updateCacheWithMessage_mhb, if_neg (by simp [h])]
    · simp only [List.filter_cons, h, Bool.not_true, Bool.false_eq_true, if_false]
      rw [updateCacheWithMessage_mhb, if_pos (by simp [h])]

/-- C3. For every payload-cache state and message whose id is not cached,
an upsert followed by a removal of that id restores manifestHashBytes,
and folding any permutation of a set of upserts with pairwise distinct
ids from the same state yields the same manifestHashBytes. -/
theorem manifestHash_inverse_and_commutative (H : String → String)
    (Hid : String → Bytes32) (cache : SyncPayloadCache) (m : Message)
    (l1 l2 : List Message)
    (hfresh : cache.messageMap.get m.messageId = none)
    (hperm : l1.Perm l2)
    (hnd : (l1.map (·.messageId)).Nodup) :
    (removeCacheMessage Hid (updateCacheWithMessage H Hid cache m)
        m.messageId).manifestHashBytes = cache.manifestHashBytes ∧
    (l1.foldl (updateCacheWithMessage H Hid) cache).manifestHashBytes =
      (l2.foldl (updateCacheWithMessage H Hid) cache).manifestHashBytes := by
  constructor
  · have hhas : cache.messageMap.has m.messageId = false :=
      JsMap.get_eq_none_iff_has.mp hfresh
    have hget : (updateCacheWithMessage H Hid cache m).messageMap.get m.messageId
        = some m := JsMap.get_set_self _ _ _
    rw [removeCacheMessage_mhb_of_present Hid _ _ _ hget,
      updateCacheWithMessage_mhb, if_neg (by simp [hhas]), xorIntoHash_cancel]
  · have hnd2 : (l2.map (·.messageId)).Nodup :=
      ((hperm.map (·.messageId)).nodup_iff).mp hnd
    rw [foldl_updateCache_mhb H Hid l1 cache hnd,
      foldl_updateCache_mhb H Hid l2 cache hnd2]
    exact foldl_xorIntoHash_perm
      ((hperm.filter (fun x => !cache.messageMap.has x.messageId)).map
        (fun x => Hid x.messageId)) _

/-- Witness for C3 at a concrete input: the empty cache, the fresh
message a, and the two orderings of the pair of upserts of a and b. -/
theorem manifestHash_inverse_and_commutative_witness :
    sampleEmptyCache.messageMap.get msgA.messageId = none ∧
    ([msgA, msgB].map (·.messageId)).Nodup ∧
    ((removeCacheMessage sampleHid
        (updateCacheWithMessage sampleH sampleHid sampleEmptyCache msgA)
        msgA.messageId).manifestHashBytes = sampleEmptyCache.manifestHashBytes ∧
      ([msgA, msgB].foldl (updateCacheWithMessage sampleH sampleHid)
          sampleEmptyCache).manifestHashBytes =
        ([msgB, msgA].foldl (updateCacheWithMessage sampleH sampleHid)
          sampleEmptyCache).manifestHashBytes) :=
  ⟨rfl, by decide,
    manifestHash_inverse_and_commutative sampleH sampleHid sampleEmptyCache
      msgA [msgA, msgB] [msgB, msgA] rfl (List.Perm.swap msgB msgA [])
      (by decide)⟩

/-- C6 (code bug exhibit). Starting from the cache built over zero
messages, upserting a message created at time 1000 leaves oldestTimestamp
at 0 although the minimum createdDate over the message map is 1000; the
recalculation routine of the same class computes 1000 for the very same
cache, so the incremental update contradicts the recomputation. -/
theorem updateCache_on_empty_oldest_bug :
    (updateCacheWithMessage sampleH sampleHid sampleEmptyCache msgA).oldestTimestamp = 0 ∧
    (updateCacheWithMessage sampleH sampleHid sampleEmptyCache
        msgA).messageMap.values.map (·.createdDate) = [1000] ∧
    (recalculateTimestamps (updateCacheWithMessage sampleH sampleHid
        sampleEmptyCache msgA)).oldestTimestamp = 1000 :=
  ⟨rfl, rfl, rfl⟩

/-- C8. The summary of a payload cache built from zero messages and zero
members has both counts zero, both timestamps zero, and a manifest hash
that is the hex rendering of thirty-two zero bytes, which is the string
of sixty-four zero characters. -/
theorem emptyCache_summary (H : String → String) (Hid : String → Bytes32)
    (sid cid : String) :
    getSummary (buildPayloadCache H Hid sid cid [] []) =
      { memberCount := 0, messageCount := 0, newestMessageTimestamp := 0
        oldestMessageTimestamp := 0
        manifestHash := some (bytesToHex (fun _ => (0 : Byte))) } ∧
    bytesToHex (fun _ => (0 : Byte)) = String.mk (List.replicate 64 '0') :=
  ⟨rfl, by decide⟩

/-- C4 (counterexample exhibit). On a message whose content type tag is
the unknown string mystery, computeContentHash returns the hash of the
bare canonical prefix instead of failing: with the identity as sample
hash the returned value is the prefix itself. -/
theorem computeContentHash_unknown_returns_value :
    computeContentHash sampleH msgUnknown = "alice:mystery" := by
  decide

/-- C4 (amended). For a message whose content type tag is outside the
fifteen known variants, computeContentHash does not fail: it returns the
hash of the canonical prefix senderId colon type with no suffix. -/
theorem computeContentHash_unknown (H : String → String) (m : Message)
    (senderId ctype : String) (hc : m.content = .unknown senderId ctype)
    (hk : ctype ∉ knownContentTypes) :
    computeContentHash H m = H (senderId ++ ":" ++ ctype) := by
  unfold computeContentHash contentCanonical
  rw [hc]
  dsimp only
  congr 1
  show "" ++ senderId ++ ":" ++ ctype ++ "" = senderId ++ ":" ++ ctype
  simp

/-- Witness for the amended C4 at the concrete sample message. -/
theorem computeContentHash_unknown_witness :
    msgUnknown.content = .unknown "alice" "mystery" ∧
    "mystery" ∉ knownContentTypes ∧
    computeContentHash sampleH msgUnknown = sampleH ("alice" ++ ":" ++ "mystery") :=
  ⟨rfl, by decide,
    computeContentHash_unknown sampleH msgUnknown "alice" "mystery" rfl (by decide)⟩

/-- C5 (counterexample exhibit). A final sync-delta payload that carries
only a peer map delta for space s leaves the session map unchanged even
though a session for s exists: the cleanup reads the space id only from
the message delta or the member delta. -/
theorem applySyncDelta_peerOnly_final_keeps_session :
    samplePeerOnlyFinal.isFinal = true ∧
    samplePeerOnlyFinal.peerMapDelta.map (·.spaceId) = some "s" ∧
    sampleSessions.get "s" = some sampleSession ∧
    applySyncDeltaSessions sampleSessions samplePeerOnlyFinal = sampleSessions :=
  ⟨rfl, rfl, rfl, rfl⟩

/-- C5 (amended). applySyncDelta deletes the session exactly when the
final payload lets it recover a space id: the messageDelta space id when
non-empty, else the memberDelta space id when non-empty; a final payload
providing neither, and any non-final payload, leaves the sessions
untouched. -/
theorem applySyncDelta_session_cleanup (sessions : JsMap String SyncSession)
    (delta : SyncDeltaPayload) :
    (∀ s, delta.isFinal = true → deltaCleanupSpace delta = some s →
      (applySyncDeltaSessions sessions delta).get s = none) ∧
    (delta.isFinal = true → deltaCleanupSpace delta = none →
      applySyncDeltaSessions sessions delta = sessions) ∧
    (delta.isFinal = false → applySyncDeltaSessions sessions delta = sessions) := by
  refine ⟨?_, ?_, ?_⟩
  · intro s hf hs
    unfold applySyncDeltaSessions
    rw [if_pos hf, hs]
    exact JsMap.get_del_self sessions s
  · intro hf hs
    unfold applySyncDeltaSessions
    rw [if_pos hf, hs]
  · intro hf
    unfold applySyncDeltaSessions
    rw [hf]
    simp

/-- Witness for the amended C5 at a concrete final payload carrying a
message delta for space s. -/
theorem applySyncDelta_session_cleanup_witness :
    sampleMessageFinal.isFinal = true ∧
    deltaCleanupSpace sampleMessageFinal = some "s" ∧
    (applySyncDeltaSessions sampleSessions sampleMessageFinal).get "s" = none :=
  ⟨rfl, rfl,
    (applySyncDelta_session_cleanup sampleSessions sampleMessageFinal).1 "s" rfl rfl⟩

/-! Lemmas about the chunker. -/

theorem chunkLoop_flatten (size : Message → Nat) :
    ∀ (msgs : List Message) (chunks : List (List Message))
      (cur : List Message) (sz : Nat),
      (chunkLoop size msgs chunks cur sz).flatten = chunks.flatten ++ cur ++ msgs := by
  intro msgs
  induction msgs with
  | nil =>
    intro chunks cur sz
    unfold chunkLoop
    rcases cur with _ | ⟨m, ms⟩
    · simp
    · simp [List.flatten_append]
  | cons m rest ih =>
    intro chunks cur sz
    unfold chunkLoop
    by_cases h1 : size m > MAX_CHUNK_SIZE
    · rw [if_pos h1]
      rcases hcur : cur with _ | ⟨x, xs⟩
      · simp only [List.isEmpty_nil, if_pos]
        rw [ih]
        simp [List.flatten_append]
      · simp only [List.isEmpty_cons, Bool.false_eq_true, if_false]
        rw [ih]
        simp [List.flatten_append, List.append_assoc]
    · rw [if_neg h1]
      by_cases h2 : sz + size m > MAX_CHUNK_SIZE ∧ ¬cur.isEmpty = true
      · rw [if_pos h2]
        rw [ih]
        simp [List.flatten_append, List.append_assoc]
      · rw [if_neg h2]
        rw [ih]
        simp [List.append_assoc]

theorem chunkMessages_flatten (size : Message → Nat) (msgs : List Message) :
    (chunkMessages size msgs).flatten = msgs := by
  unfold chunkMessages
  rw [chunkLoop_flatten]
  rfl

theorem chunkMessages_ne_nil (size : Message → Nat) (msgs : List Message)
    (h : msgs ≠ []) : chunkMessages size msgs ≠ [] := by
  intro hc
  apply h
  rw [← chunkMessages_flatten size msgs, hc]
  rfl

theorem chunkLoop_size_bound (size : Message → Nat) :
    ∀ (msgs : List Message) (chunks : List (List Message))
      (cur : List Message) (sz : Nat),
      (∀ c ∈ chunks, 2 ≤ c.length → (c.map size).sum ≤ MAX_CHUNK_SIZE) →
      (cur.map size).sum ≤ MAX_CHUNK_SIZE →
      sz = (cur.map size).sum →
      ∀ c ∈ chunkLoop size msgs chunks cur sz,
        2 ≤ c.length → (c.map size).sum ≤ MAX_CHUNK_SIZE := by
  intro msgs
  induction msgs with
  | nil =>
    intro chunks cur sz hc hcur _
    unfold chunkLoop
    rcases cur with _ | ⟨x, xs⟩
    · simpa using hc
    · simp only [List.isEmpty_cons, Bool.false_eq_true, if_false]
      intro c hmem
      rcases List.mem_append.mp hmem with h | h
      · exact hc c h
      · intro _
        rw [List.mem_singleton.mp h]
        exact hcur
  | cons m rest ih =>
    intro chunks cur sz hc hcur hsz
    unfold chunkLoop
    by_cases h1 : size m > MAX_CHUNK_SIZE
    · rw [if_pos h1]
      refine ih _ _ _ ?_ (by simp) (by simp)
      intro c hmem
      rcases List.mem_append.mp hmem with h | h
      · rcases hcur' : cur with _ | ⟨x, xs⟩
        · rw [hcur'] at h
          simp only [List.isEmpty_nil, if_pos] at h
          exact hc c h
        · rw [hcur'] at h
          simp only [List.isEmpty_cons, Bool.false_eq_true, if_false] at h
          rcases List.mem_append.mp h with h' | h'
          · exact hc c h'
          · intro _
            rw [List.mem_singleton.mp h']
            rw [← hcur']
            exact hcur
      · intro hlen
        rw [List.mem_singleton.mp h] at hlen
        simp at hlen
    · rw [if_neg h1]
      by_cases h2 : sz + size m > MAX_CHUNK_SIZE ∧ ¬cur.isEmpty = true
      · rw [if_pos h2]
        refine ih _ _ _ ?_ (by simpa using Nat.le_of_not_lt h1) (by simp)
        intro c hmem
        rcases List.mem_append.mp hmem with h | h
        · exact hc c h
        · intro _
          rw [List.mem_singleton.mp h]
          exact hcur
      · rw [if_neg h2]
        refine ih _ _ _ hc ?_ (by simp [hsz])
        have hm : size m ≤ MAX_CHUNK_SIZE := Nat.le_of_not_lt h1
        rcases hcur' : cur with _ | ⟨x, xs⟩
        · simpa using hm
        · have hne : ¬cur.isEmpty = true := by simp [hcur']
          have h3 : ¬sz + size m > MAX_CHUNK_SIZE := by
            intro hgt
            exact h2 ⟨hgt, hne⟩
          rw [← hcur']
          have : (cur.map size).sum + size m ≤ MAX_CHUNK_SIZE := by
            rw [← hsz]
            exact Nat.le_of_not_lt h3
          simpa using this

theorem chunkLoop_oversized_alone (size : Message → Nat) :
    ∀ (msgs : List Message) (chunks : List (List Message))
      (cur : List Message) (sz : Nat),
      (∀ c ∈ chunks, ∀ m ∈ c, size m > MAX_CHUNK_SIZE → c = [m]) →
      (∀ m ∈ cur, size m ≤ MAX_CHUNK_SIZE) →
      ∀ c ∈ chunkLoop size msgs chunks cur sz,
        ∀ m ∈ c, size m > MAX_CHUNK_SIZE → c = [m] := by
  intro msgs
  induction msgs with
  | nil =>
    intro chunks cur sz hc hcur
    unfold chunkLoop
    rcases cur with _ | ⟨x, xs⟩
    · simpa using hc
    · simp only [List.isEmpty_cons, Bool.false_eq_true, if_false]
      intro c hmem m hm hsize
      rcases List.mem_append.mp hmem with h | h
      · exact hc c h m hm hsize
      · rw [List.mem_singleton.mp h] at hm
        exact absurd hsize (by simpa using Nat.not_lt.mpr (hcur m hm))
  | cons m rest ih =>
    intro chunks cur sz hc hcur
    unfold chunkLoop
    by_cases h1 : size m > MAX_CHUNK_SIZE
    · rw [if_pos h1]
      refine ih _ _ _ ?_ (by simp)
      intro c hmem x hx hsize
      rcases List.mem_append.mp hmem with h | h
      · rcases hcur' : cur with _ | ⟨y, ys⟩
        · rw [hcur'] at h
          simp only [List.isEmpty_nil, if_pos] at h
          exact hc c h x hx hsize
        · rw [hcur'] at h
          simp only [List.isEmpty_cons, Bool.false_eq_true, if_false] at h
          rcases List.mem_append.mp h with h' | h'
          · exact hc c h' x hx hsize
          · rw [List.mem_singleton.mp h'] at hx
            rw [← hcur'] at hx
            exact absurd hsize (by simpa using Nat.not_lt.mpr (hcur x hx))
      · rw [List.mem_singleton.mp h] at hx ⊢
        rw [List.mem_singleton.mp hx]
    · rw [if_neg h1]
      by_cases h2 : sz + size m > MAX_CHUNK_SIZE ∧ ¬cur.isEmpty = true
      · rw [if_pos h2]
        refine ih _ _ _ ?_ ?_
        · intro c hmem x hx hsize
          rcases List.mem_append.mp hmem with h | h
          · exact hc c h x hx hsize
          · rw [List.mem_singleton.mp h] at hx
            exact absurd hsize (by simpa using Nat.not_lt.mpr (hcur x hx))
        · intro x hx
          rw [List.mem_singleton.mp hx]
          exact Nat.le_of_not_lt h1
      · rw [if_neg h2]
        refine ih _ _ _ hc ?_
        intro x hx
        rcases List.mem_append.mp hx with h | h
        · exact hcur x h
        · rw [List.mem_singleton.mp h]
          exact Nat.le_of_not_lt h1

/-- C7. chunkMessages preserves the input in order (the concatenation of
the chunks is the input list), every chunk holding two or more messages
fits the byte cap, and an oversized message always sits alone in its
chunk. Parametric in the serialized size function. -/
theorem chunkMessages_spec (size : Message → Nat) (msgs : List Message) :
    (chunkMessages size msgs).flatten = msgs ∧
    (∀ c ∈ chunkMessages size msgs, 2 ≤ c.length →
      (c.map size).sum ≤ MAX_CHUNK_SIZE) ∧
    (∀ c ∈ chunkMessages size msgs, ∀ m ∈ c,
      size m > MAX_CHUNK_SIZE → c = [m]) := by
  refine ⟨chunkMessages_flatten size msgs, ?_, ?_⟩
  · exact chunkLoop_size_bound size msgs [] [] 0 (by simp) (by simp) (by simp)
  · exact chunkLoop_oversized_alone size msgs [] [] 0 (by simp) (by simp)

/-- Witness for C7 at a concrete input: two messages, both oversized, so
each lands alone in its own chunk. -/
theorem chunkMessages_spec_witness :
    (chunkMessages sampleSizeBig [msgA, msgB]).flatten = [msgA, msgB] ∧
    [msgA] ∈ chunkMessages sampleSizeBig [msgA, msgB] ∧
    msgA ∈ [msgA] ∧
    sampleSizeBig msgA > MAX_CHUNK_SIZE ∧
    [msgA] = [msgA] :=
  ⟨(chunkMessages_spec sampleSizeBig [msgA, msgB]).1, by decide, by decide, by decide,
    (chunkMessages_spec sampleSizeBig [msgA, msgB]).2.2 [msgA] (by decide) msgA
      (by decide) (by decide)⟩

/-! Lemmas about the payload assembly of buildSyncDelta. -/

theorem mkChunkPayload_isFinal (sid cid : String) (diff : MessageDiffResult)
    (del : List String) (rd : ReactionDelta) (isLast : Bool) (c : List Message) :
    (mkChunkPayload sid cid diff del rd isLast c).isFinal = false := rfl

theorem mkChunkPayload_messageDelta (sid cid : String) (diff : MessageDiffResult)
    (del : List String) (rd : ReactionDelta) (isLast : Bool) (c : List Message) :
    (mkChunkPayload sid cid diff del rd isLast c).messageDelta.isSome = true := rfl

theorem mkChunkPayload_reactionDelta_notLast (sid cid : String)
    (diff : MessageDiffResult) (del : List String) (rd : ReactionDelta)
    (c : List Message) :
    (mkChunkPayload sid cid diff del rd false c).reactionDelta = none := by
  simp [mkChunkPayload]

theorem mkChunkPayload_reactionDelta_eq (sid cid : String)
    (diff : MessageDiffResult) (del : List String) (rd : ReactionDelta)
    (isLast : Bool) (c : List Message) :
    ∀ x, (mkChunkPayload sid cid diff del rd isLast c).reactionDelta = some x →
      x = rd := by
  intro x hx
  unfold mkChunkPayload at hx
  dsimp only at hx
  by_cases h : isLast = true ∧ ¬rd.added.isEmpty = true
  · rw [if_pos h] at hx
    exact (Option.some.inj hx).symm
  · rw [if_neg h] at hx
    exact absurd hx (by simp)

theorem chunkPayloads_shape (sid cid : String) (diff : MessageDiffResult)
    (del : List String) (rd : ReactionDelta) :
    ∀ (chunks : List (List Message)), chunks ≠ [] →
      ∃ pre lastC,
        chunkPayloads sid cid diff del rd chunks =
          pre ++ [mkChunkPayload sid cid diff del rd true lastC] ∧
        ∀ p ∈ pre, ∃ c, p = mkChunkPayload sid cid diff del rd false c := by
  intro chunks
  induction chunks with
  | nil => intro h; exact absurd rfl h
  | cons c cs ih =>
    intro _
    rcases cs with _ | ⟨c2, rest⟩
    · exact ⟨[], c, rfl, by simp⟩
    · obtain ⟨pre, lastC, heq, hpre⟩ := ih (by simp)
      refine ⟨mkChunkPayload sid cid diff del rd false c :: pre, lastC, ?_, ?_⟩
      · show mkChunkPayload sid cid diff del rd false c ::
          chunkPayloads sid cid diff del rd (c2 :: rest) = _
        rw [heq]
        rfl
      · intro p hp
        rcases List.mem_cons.mp hp with h | h
        · exact ⟨c, h⟩
        · exact hpre p h

theorem setLastFinal_append (xs : List SyncDeltaPayload) (x : SyncDeltaPayload) :
    setLastFinal (xs ++ [x]) = xs ++ [{ x with isFinal := true }] := by
  induction xs with
  | nil => rfl
  | cons a as ih =>
    rcases as with _ | ⟨b, bs⟩
    · rfl
    · show a :: setLastFinal ((b :: bs) ++ [x]) = _
      rw [ih]
      rfl

theorem reactionOnlyLastChunk_of_none (ps : List SyncDeltaPayload)
    (h : ∀ p ∈ ps, p.reactionDelta = none) : reactionOnlyLastChunk ps := by
  intro i hi
  rw [List.get_eq_getElem] at hi
  rw [h (ps[i.val]) (List.getElem_mem i.isLt)] at hi
  simp at hi

theorem reactionOnlyLastChunk_shape (xs : List SyncDeltaPayload)
    (y : SyncDeltaPayload) (zs : List SyncDeltaPayload)
    (hxs : ∀ p ∈ xs, p.reactionDelta = none)
    (hy : y.messageDelta.isSome = true)
    (hzs : ∀ p ∈ zs, p.reactionDelta = none ∧ p.messageDelta = none) :
    reactionOnlyLastChunk (xs ++ y :: zs) := by
  intro i hi
  have hzelem : ∀ (j : Nat) (hj : j < (xs ++ y :: zs).length), xs.length < j →
      ∃ p ∈ zs, (xs ++ y :: zs).get ⟨j, hj⟩ = p := by
    intro j hj hjgt
    have h1 : (xs ++ y :: zs)[j]? = zs[j - xs.length - 1]? := by
      rw [List.getElem?_append_right (Nat.le_of_lt hjgt)]
      obtain ⟨k', hk'⟩ : ∃ k', j - xs.length = k' + 1 := ⟨j - xs.length - 1, by omega⟩
      rw [hk', List.getElem?_cons_succ]
      rw [show k' = j - xs.length - 1 by omega]
      simp
    have h2 : (xs ++ y :: zs)[j]? = some ((xs ++ y :: zs).get ⟨j, hj⟩) := by
      rw [List.get_eq_getElem]
      exact List.getElem?_eq_getElem hj
    have h3 : zs[j - xs.length - 1]? = some ((xs ++ y :: zs).get ⟨j, hj⟩) := by
      rw [← h1]
      exact h2
    exact ⟨_, List.getElem?_mem h3, rfl⟩
  have hival : i.val = xs.length := by
    rcases Nat.lt_trichotomy i.val xs.length with h | h | h
    · exfalso
      have hmem : (xs ++ y :: zs).get i ∈ xs := by
        rw [List.get_eq_getElem, List.getElem_append_left h]
        exact List.getElem_mem _
      rw [hxs _ hmem] at hi
      simp at hi
    · exact h
    · exfalso
      obtain ⟨p, hpz, hpe⟩ := hzelem i.val i.isLt h
      have hpe2 : (xs ++ y :: zs).get i = p := hpe
      rw [hpe2, (hzs p hpz).1] at hi
      simp at hi
  have hgety : (xs ++ y :: zs).get i = y := by
    rw [List.get_eq_getElem, List.getElem_append_right (Nat.le_of_eq hival.symm)]
    simp [hival]
  constructor
  · rw [hgety]
    exact hy
  · intro j hij
    have hjgt : xs.length < j.val := by omega
    obtain ⟨p, hpz, hpe⟩ := hzelem j.val j.isLt hjgt
    have hpe2 : (xs ++ y :: zs).get j = p := hpe
    rw [hpe2]
    exact (hzs p hpz).2

theorem reactionFilter_le_one_shape (xs : List SyncDeltaPayload)
    (y : SyncDeltaPayload) (zs : List SyncDeltaPayload)
    (hxs : ∀ p ∈ xs, p.reactionDelta = none)
    (hzs : ∀ p ∈ zs, p.reactionDelta = none) :
    ((xs ++ y :: zs).filter (fun p => p.reactionDelta.isSome)).length ≤ 1 := by
  rw [List.filter_append, List.filter_cons]
  have h1 : xs.filter (fun p => p.reactionDelta.isSome) = [] := by
    rw [List.filter_eq_nil_iff]
    intro p hp
    rw [hxs p hp]
    simp
  have h2 : zs.filter (fun p => p.reactionDelta.isSome) = [] := by
    rw [List.filter_eq_nil_iff]
    intro p hp
    rw [hzs p hp]
    simp
  rw [h1, h2]
  by_cases hy : y.reactionDelta.isSome = true <;> simp [hy]

theorem assembleDeltaPayloads_shape (emptyAll : Bool)
    (chunked : List SyncDeltaPayload) (memberDelta : MemberDelta)
    (peerMapDelta : PeerMapDelta) (rd : ReactionDelta)
    (hshape : chunked = [] ∨ ∃ pre last, chunked = pre ++ [last] ∧
      (∀ p ∈ pre, p.isFinal = false ∧ p.messageDelta.isSome = true ∧
        p.reactionDelta = none) ∧
      last.isFinal = false ∧ last.messageDelta.isSome = true ∧
      (∀ x, last.reactionDelta = some x → x = rd))
    (hne : emptyAll = false → chunked ≠ []) :
    finalExactlyLast (assembleDeltaPayloads emptyAll chunked memberDelta peerMapDelta) ∧
    ((assembleDeltaPayloads emptyAll chunked memberDelta peerMapDelta).filter
      (fun p => p.reactionDelta.isSome)).length ≤ 1 ∧
    reactionOnlyLastChunk
      (assembleDeltaPayloads emptyAll chunked memberDelta peerMapDelta) ∧
    (∀ p ∈ assembleDeltaPayloads emptyAll chunked memberDelta peerMapDelta,
      ∀ x, p.reactionDelta = some x → x = rd) := by
  unfold assembleDeltaPayloads
  by_cases hcond : ¬memberDelta.members.isEmpty = true ∨
      ¬peerMapDelta.added.isEmpty = true ∨ emptyAll = true
  · rw [if_pos hcond]
    have hTne : (chunked ++
        [{ messageDelta := none, reactionDelta := none
           memberDelta := if ¬memberDelta.members.isEmpty then some memberDelta else none
           peerMapDelta := if ¬peerMapDelta.added.isEmpty then some peerMapDelta else none
           isFinal := true : SyncDeltaPayload }]).isEmpty = false := by
      rcases chunked with _ | _ <;> rfl
    rw [if_neg (by simp [hTne])]
    rcases hshape with rfl | ⟨pre, last, rfl, hpre, hlf, hlm, hlr⟩
    · refine ⟨⟨[], _, rfl, rfl, by simp⟩, ?_, ?_, ?_⟩
      · simp
      · refine reactionOnlyLastChunk_of_none _ ?_
        intro p hp
        rw [List.nil_append, List.mem_singleton] at hp
        subst hp
        rfl
      · intro p hp x hx
        rw [List.nil_append, List.mem_singleton] at hp
        subst hp
        exact absurd hx (by simp)
    · have hassoc : ((pre ++ [last]) ++
          [{ messageDelta := none, reactionDelta := none
             memberDelta := if ¬memberDelta.members.isEmpty then some memberDelta else none
             peerMapDelta := if ¬peerMapDelta.added.isEmpty then some peerMapDelta else none
             isFinal := true : SyncDeltaPayload }]) = pre ++ last ::
          [{ messageDelta := none, reactionDelta := none
             memberDelta := if ¬memberDelta.members.isEmpty then some memberDelta else none
             peerMapDelta := if ¬peerMapDelta.added.isEmpty then some peerMapDelta else none
             isFinal := true : SyncDeltaPayload }] := by
        rw [List.append_assoc]
        rfl
      refine ⟨⟨pre ++ [last], _, rfl, rfl, ?_⟩, ?_, ?_, ?_⟩
      · intro p hp
        rcases List.mem_append.mp hp with h | h
        · exact (hpre p h).1
        · rw [List.mem_singleton.mp h]
          exact hlf
      · rw [hassoc]
        exact reactionFilter_le_one_shape pre last _
          (fun p hp => (hpre p hp).2.2) (by
            intro p hp
            rw [List.mem_singleton.mp hp])
      · rw [hassoc]
        exact reactionOnlyLastChunk_shape pre last _
          (fun p hp => (hpre p hp).2.2) hlm (by
            intro p hp
            rw [List.mem_singleton.mp hp]
            exact ⟨rfl, rfl⟩)
      · intro p hp x hx
        rcases List.mem_append.mp hp with h | h
        · rcases List.mem_append.mp h with h' | h'
          · rw [(hpre p h').2.2] at hx
            exact absurd hx (by simp)
          · rw [List.mem_singleton.mp h'] at hx
            exact hlr x hx
        · rw [List.mem_singleton.mp h] at hx
          exact absurd hx (by simp)
  · rw [if_neg hcond]
    have hempty : emptyAll = false := by
      rcases emptyAll with _ | _
      · rfl
      · exact absurd (Or.inr (Or.inr rfl)) hcond
    have hchne : chunked ≠ [] := hne hempty
    rcases hshape with rfl | ⟨pre, last, rfl, hpre, hlf, hlm, hlr⟩
    · exact absurd rfl hchne
    · have hie : ¬(pre ++ [last]).isEmpty = true := by
        rcases pre with _ | _ <;> simp
      rw [if_pos hie, setLastFinal_append]
      have hne2 : ((pre ++ [{ last with isFinal := true }]).isEmpty) = false := by
        rcases pre with _ | _ <;> rfl
      rw [if_neg (by simp [hne2])]
      refine ⟨⟨pre, _, rfl, rfl, fun p hp => (hpre p hp).1⟩, ?_, ?_, ?_⟩
      · have : pre ++ [{ last with isFinal := true }] =
            pre ++ { last with isFinal := true } :: [] := rfl
        rw [this]
        exact reactionFilter_le_one_shape pre _ []
          (fun p hp => (hpre p hp).2.2) (by simp)
      · have : pre ++ [{ last with isFinal := true }] =
            pre ++ { last with isFinal := true } :: [] := rfl
        rw [this]
        exact reactionOnlyLastChunk_shape pre _ []
          (fun p hp => (hpre p hp).2.2) hlm (by simp)
      · intro p hp x hx
        rcases List.mem_append.mp hp with h | h
        · rw [(hpre p h).2.2] at hx
          exact absurd hx (by simp)
        · rw [List.mem_singleton.mp h] at hx
          exact hlr x hx

theorem buildSyncDelta_payload_shape (H : String → String) (size : Message → Nat)
    (cache : SyncPayloadCache) (tombstones : List DeletedMessageTombstone)
    (sid cid : String) (theirManifest : SyncManifest)
    (theirMemberDigests : List MemberDigest) (theirPeerIds : List Nat)
    (ourPeerEntries : JsMap Nat PeerEntry) :
    finalExactlyLast (buildSyncDelta H size cache tombstones sid cid theirManifest
      theirMemberDigests theirPeerIds ourPeerEntries) ∧
    ((buildSyncDelta H size cache tombstones sid cid theirManifest
      theirMemberDigests theirPeerIds ourPeerEntries).filter
        (fun p => p.reactionDelta.isSome)).length ≤ 1 ∧
    reactionOnlyLastChunk (buildSyncDelta H size cache tombstones sid cid
      theirManifest theirMemberDigests theirPeerIds ourPeerEntries) ∧
    (∀ p ∈ buildSyncDelta H size cache tombstones sid cid theirManifest
        theirMemberDigests theirPeerIds ourPeerEntries,
      ∀ x, p.reactionDelta = some x →
        x = buildReactionDelta sid cid cache.messageMap
          ((computeMessageDiff (getManifest H cache) theirManifest).extraIds ++
            (computeMessageDiff (getManifest H cache) theirManifest).outdatedIds)) := by
  set diff := computeMessageDiff (getManifest H cache) theirManifest with hdiff
  set md := buildMessageDelta sid cid diff cache.messageMap tombstones with hmd
  set rd := buildReactionDelta sid cid cache.messageMap
    (diff.extraIds ++ diff.outdatedIds) with hrd
  set memD := buildMemberDelta sid
    (computeMemberDiff theirMemberDigests (getMemberDigests cache))
    cache.memberMap with hmemD
  set pmd : PeerMapDelta :=
    { spaceId := sid
      added := (computePeerDiff theirPeerIds ourPeerEntries.keys).extraPeerIds.filterMap
        (fun id => ourPeerEntries.get id)
      updated := []
      removed := [] } with hpmd
  set allM := md.newMessages ++ md.updatedMessages with hallM
  set p0 := (if allM.isEmpty then ([] : List SyncDeltaPayload)
    else chunkPayloads sid cid diff md.deletedMessageIds rd
      (chunkMessages size allM)) with hp0
  have heq : buildSyncDelta H size cache tombstones sid cid theirManifest
      theirMemberDigests theirPeerIds ourPeerEntries =
      assembleDeltaPayloads allM.isEmpty p0 memD pmd := rfl
  rw [heq]
  apply assembleDeltaPayloads_shape allM.isEmpty p0 memD pmd rd
  · by_cases hA : allM.isEmpty = true
    · left
      rw [hp0, if_pos hA]
    · right
      have hAne : allM ≠ [] := by
        intro hnil
        exact hA (by simp [hnil])
      have hchunks : chunkMessages size allM ≠ [] := chunkMessages_ne_nil size allM hAne
      obtain ⟨pre, lastC, heq2, hpre⟩ :=
        chunkPayloads_shape sid cid diff md.deletedMessageIds rd _ hchunks
      refine ⟨pre, mkChunkPayload sid cid diff md.deletedMessageIds rd true lastC,
        ?_, ?_, rfl, rfl, mkChunkPayload_reactionDelta_eq _ _ _ _ _ _ _⟩
      · rw [hp0, if_neg hA, heq2]
      · intro p hp
        obtain ⟨c, rfl⟩ := hpre p hp
        exact ⟨rfl, rfl, mkChunkPayload_reactionDelta_notLast _ _ _ _ _ _⟩
  · intro hA
    have hAne : allM ≠ [] := by
      intro hnil
      rw [hnil] at hA
      simp at hA
    have hchunks : chunkMessages size allM ≠ [] := chunkMessages_ne_nil size allM hAne
    obtain ⟨pre, lastC, heq2, _⟩ :=
      chunkPayloads_shape sid cid diff md.deletedMessageIds rd _ hchunks
    rw [hp0, if_neg (by simp [hA]), heq2]
    simp

/-- C1. Every payload sequence returned by buildSyncDelta has exactly one
payload with isFinal true and it is the last one; a reaction delta is
present in at most one payload, and that payload is a message chunk that
is the last message chunk of the sequence. -/
theorem buildSyncDelta_final_and_reaction_unique (H : String → String)
    (size : Message → Nat) (cache : SyncPayloadCache)
    (tombstones : List DeletedMessageTombstone) (sid cid : String)
    (theirManifest : SyncManifest) (theirMemberDigests : List MemberDigest)
    (theirPeerIds : List Nat) (ourPeerEntries : JsMap Nat PeerEntry) :
    finalExactlyLast (buildSyncDelta H size cache tombstones sid cid theirManifest
      theirMemberDigests theirPeerIds ourPeerEntries) ∧
    ((buildSyncDelta H size cache tombstones sid cid theirManifest
      theirMemberDigests theirPeerIds ourPeerEntries).filter
        (fun p => p.reactionDelta.isSome)).length ≤ 1 ∧
    reactionOnlyLastChunk (buildSyncDelta H size cache tombstones sid cid
      theirManifest theirMemberDigests theirPeerIds ourPeerEntries) :=
  have h := buildSyncDelta_payload_shape H size cache tombstones sid cid
    theirManifest theirMemberDigests theirPeerIds ourPeerEntries
  ⟨h.1, h.2.1, h.2.2.1⟩

/-- Witness for C1 at a concrete input: the empty cache against the empty
manifest yields a single final payload. -/
theorem buildSyncDelta_final_and_reaction_unique_witness :
    finalExactlyLast (buildSyncDelta sampleH sampleSizeSmall sampleEmptyCache
      [sampleTombstone] "s" "c" sampleEmptyManifest [] [] ⟨[]⟩) ∧
    ((buildSyncDelta sampleH sampleSizeSmall sampleEmptyCache [sampleTombstone]
      "s" "c" sampleEmptyManifest [] [] ⟨[]⟩).filter
        (fun p => p.reactionDelta.isSome)).length ≤ 1 ∧
    reactionOnlyLastChunk (buildSyncDelta sampleH sampleSizeSmall sampleEmptyCache
      [sampleTombstone] "s" "c" sampleEmptyManifest [] [] ⟨[]⟩) :=
  buildSyncDelta_final_and_reaction_unique sampleH sampleSizeSmall sampleEmptyCache
    [sampleTombstone] "s" "c" sampleEmptyManifest [] [] ⟨[]⟩

/-- C9. When the message diff against the their-side manifest yields no
extra and no outdated ids, buildSyncDelta emits no message delta at all,
so in particular no deletedMessageIds travel, whatever tombstones exist. -/
theorem buildSyncDelta_no_deletions_without_chunks (H : String → String)
    (size : Message → Nat) (cache : SyncPayloadCache)
    (tombstones : List DeletedMessageTombstone) (sid cid : String)
    (theirManifest : SyncManifest) (theirMemberDigests : List MemberDigest)
    (theirPeerIds : List Nat) (ourPeerEntries : JsMap Nat PeerEntry)
    (hextra : (computeMessageDiff (getManifest H cache) theirManifest).extraIds = [])
    (houtd : (computeMessageDiff (getManifest H cache) theirManifest).outdatedIds = []) :
    ∀ p ∈ buildSyncDelta H size cache tombstones sid cid theirManifest
        theirMemberDigests theirPeerIds ourPeerEntries,
      p.messageDelta = none := by
  set diff := computeMessageDiff (getManifest H cache) theirManifest with hdiff
  set md := buildMessageDelta sid cid diff cache.messageMap tombstones with hmd
  set rd := buildReactionDelta sid cid cache.messageMap
    (diff.extraIds ++ diff.outdatedIds) with hrd
  set memD := buildMemberDelta sid
    (computeMemberDiff theirMemberDigests (getMemberDigests cache))
    cache.memberMap with hmemD
  set pmd : PeerMapDelta :=
    { spaceId := sid
      added := (computePeerDiff theirPeerIds ourPeerEntries.keys).extraPeerIds.filterMap
        (fun id => ourPeerEntries.get id)
      updated := []
      removed := [] } with hpmd
  set allM := md.newMessages ++ md.updatedMessages with hallM
  set p0 := (if allM.isEmpty then ([] : List SyncDeltaPayload)
    else chunkPayloads sid cid diff md.deletedMessageIds rd
      (chunkMessages size allM)) with hp0
  have heq : buildSyncDelta H size cache tombstones sid cid theirManifest
      theirMemberDigests theirPeerIds ourPeerEntries =
      assembleDeltaPayloads allM.isEmpty p0 memD pmd := rfl
  rw [heq]
  have hall : allM = [] := by
    rw [hallM, hmd]
    unfold buildMessageDelta
    dsimp only
    rw [hextra, houtd]
    rfl
  have hA : allM.isEmpty = true := by
    rw [hall]
    rfl
  have hp0nil : p0 = [] := by
    rw [hp0, if_pos hA]
  unfold assembleDeltaPayloads
  rw [hp0nil, if_pos (Or.inr (Or.inr hA))]
  rw [if_neg (by simp)]
  intro p hp
  rw [List.nil_append, List.mem_singleton] at hp
  subst hp
  rfl

/-- Witness for C9 at a concrete input: the empty cache against the empty
manifest, with a tombstone for the very channel on the books. -/
theorem buildSyncDelta_no_deletions_without_chunks_witness :
    (computeMessageDiff (getManifest sampleH sampleEmptyCache)
      sampleEmptyManifest).extraIds = [] ∧
    (computeMessageDiff (getManifest sampleH sampleEmptyCache)
      sampleEmptyManifest).outdatedIds = [] ∧
    ∀ p ∈ buildSyncDelta sampleH sampleSizeSmall sampleEmptyCache
        [sampleTombstone] "s" "c" sampleEmptyManifest [] [] ⟨[]⟩,
      p.messageDelta = none :=
  ⟨rfl, rfl,
    buildSyncDelta_no_deletions_without_chunks sampleH sampleSizeSmall
      sampleEmptyCache [sampleTombstone] "s" "c" sampleEmptyManifest [] [] ⟨[]⟩
      rfl rfl⟩

/-- C10. buildReactionDelta always returns an empty removed list, and
consequently every reaction delta carried by any payload of buildSyncDelta
has an empty removed list: sync never instructs reaction removal. -/
theorem buildReactionDelta_never_removes (sid cid : String)
    (messageMap : JsMap String Message) (messageIds : List String)
    (H : String → String) (size : Message → Nat) (cache : SyncPayloadCache)
    (tombstones : List DeletedMessageTombstone) (sid' cid' : String)
    (theirManifest : SyncManifest) (theirMemberDigests : List MemberDigest)
    (theirPeerIds : List Nat) (ourPeerEntries : JsMap Nat PeerEntry) :
    (buildReactionDelta sid cid messageMap messageIds).removed = [] ∧
    ∀ p ∈ buildSyncDelta H size cache tombstones sid' cid' theirManifest
        theirMemberDigests theirPeerIds ourPeerEntries,
      ∀ x, p.reactionDelta = some x → x.removed = [] := by
  constructor
  · rfl
  · intro p hp x hx
    have h4 := (buildSyncDelta_payload_shape H size cache tombstones sid' cid'
      theirManifest theirMemberDigests theirPeerIds ourPeerEntries).2.2.2 p hp x hx
    rw [h4]
    rfl

/-- Witness for C10 at a concrete input. -/
theorem buildReactionDelta_never_removes_witness :
    (buildReactionDelta "s" "c" (⟨[]⟩ : JsMap String Message) ["a"]).removed = [] ∧
    ∀ p ∈ buildSyncDelta sampleH sampleSizeSmall sampleEmptyCache
        [sampleTombstone] "s" "c" sampleEmptyManifest [] [] ⟨[]⟩,
      ∀ x, p.reactionDelta = some x → x.removed = [] :=
  ⟨(buildReactionDelta_never_removes "s" "c" ⟨[]⟩ ["a"] sampleH sampleSizeSmall
      sampleEmptyCache [sampleTombstone] "s" "c" sampleEmptyManifest [] [] ⟨[]⟩).1,
    (buildReactionDelta_never_removes "s" "c" ⟨[]⟩ ["a"] sampleH sampleSizeSmall
      sampleEmptyCache [sampleTombstone] "s" "c" sampleEmptyManifest [] [] ⟨[]⟩).2⟩

/-! Lemmas about the diff engine. -/

theorem JsMap.ofList_aux {κ α : Type} [DecidableEq κ] :
    ∀ (l : List (κ × α)) (acc : JsMap κ α),
      (∀ e ∈ l, acc.has e.1 = false) → (l.map Prod.fst).Nodup →
      (l.foldl (fun m e => m.set e.1 e.2) acc).entries = acc.entries ++ l := by
  intro l
  induction l with
  | nil => intro acc _ _; simp
  | cons e rest ih =>
    intro acc hfresh hnd
    rw [List.foldl_cons]
    have hset : (acc.set e.1 e.2).entries = acc.entries ++ [e] := by
      unfold JsMap.set
      rw [if_neg (by simp [hfresh e (List.mem_cons_self e rest)])]
    rw [List.map_cons] at hnd
    have hfresh2 : ∀ x ∈ rest, (acc.set e.1 e.2).has x.1 = false := by
      intro x hx
      rw [JsMap.has_set]
      have h1 : acc.has x.1 = false := hfresh x (List.mem_cons_of_mem e hx)
      have h2 : x.1 ≠ e.1 := by
        intro hx1
        exact (List.nodup_cons.mp hnd).1 (hx1 ▸ List.mem_map_of_mem Prod.fst hx)
      simp [h1, h2]
    rw [ih (acc.set e.1 e.2) hfresh2 (List.nodup_cons.mp hnd).2, hset]
    simp

theorem JsMap.ofList_entries_of_nodup {κ α : Type} [DecidableEq κ]
    (l : List (κ × α)) (hnd : (l.map Prod.fst).Nodup) :
    (JsMap.ofList l).entries = l := by
  unfold JsMap.ofList
  rw [JsMap.ofList_aux l ⟨[]⟩ (fun e _ => rfl) hnd]
  rfl

theorem mem_digestKeyed {l : List MessageDigest} {id : String} {v : MessageDigest} :
    (id, v) ∈ l.map (fun d => (d.messageId, d)) ↔ v ∈ l ∧ v.messageId = id := by
  rw [List.mem_map]
  constructor
  · rintro ⟨d, hd, he⟩
    have h1 : d.messageId = id := congrArg Prod.fst he
    have h2 : d = v := congrArg Prod.snd he
    subst h2
    exact ⟨hd, h1⟩
  · rintro ⟨hv, hid⟩
    exact ⟨v, hv, by rw [hid]⟩

theorem messageDiffLoop_fst_mem (ourMap : JsMap String MessageDigest) :
    ∀ (entries : List (String × MessageDigest)) (id : String),
      id ∈ (messageDiffLoop ourMap entries).1 ↔
        ∃ v, (id, v) ∈ entries ∧ ourMap.get id = none := by
  intro entries
  induction entries with
  | nil => intro id; simp [messageDiffLoop]
  | cons e rest ih =>
    intro id
    obtain ⟨k, d⟩ := e
    unfold messageDiffLoop
    dsimp only
    rcases hget : ourMap.get k with _ | od
    · dsimp only
      rw [List.mem_cons]
      constructor
      · rintro (rfl | h)
        · exact ⟨d, List.mem_cons_self _ _, hget⟩
        · obtain ⟨v, hv, hn⟩ := (ih id).mp h
          exact ⟨v, List.mem_cons_of_mem _ hv, hn⟩
      · rintro ⟨v, hv, hn⟩
        rcases List.mem_cons.mp hv with he | hv'
        · left
          exact (congrArg Prod.fst he)
        · right
          exact (ih id).mpr ⟨v, hv', hn⟩
    · have hfst : (if od.contentHash ≠ d.contentHash ∧
            effModified od < effModified d then
            ((messageDiffLoop ourMap rest).1, k :: (messageDiffLoop ourMap rest).2)
          else messageDiffLoop ourMap rest).1 = (messageDiffLoop ourMap rest).1 := by
        split
        · rfl
        · rfl
      rw [hfst, ih id]
      constructor
      · rintro ⟨v, hv, hn⟩
        exact ⟨v, List.mem_cons_of_mem _ hv, hn⟩
      · rintro ⟨v, hv, hn⟩
        rcases List.mem_cons.mp hv with he | hv'
        · exfalso
          have hk : id = k := congrArg Prod.fst he
          rw [hk, hget] at hn
          exact Option.noConfusion hn
        · exact ⟨v, hv', hn⟩

theorem messageDiffLoop_snd_mem (ourMap : JsMap String MessageDigest) :
    ∀ (entries : List (String × MessageDigest)) (id : String),
      id ∈ (messageDiffLoop ourMap entries).2 ↔
        ∃ v od, (id, v) ∈ entries ∧ ourMap.get id = some od ∧
          od.contentHash ≠ v.contentHash ∧ effModified od < effModified v := by
  intro entries
  induction entries with
  | nil => intro id; simp [messageDiffLoop]
  | cons e rest ih =>
    intro id
    obtain ⟨k, d⟩ := e
    unfold messageDiffLoop
    dsimp only
    rcases hget : ourMap.get k with _ | od
    · dsimp only
      rw [ih id]
      constructor
      · rintro ⟨v, w, hv, hs, hh, hm⟩
        exact ⟨v, w, List.mem_cons_of_mem _ hv, hs, hh, hm⟩
      · rintro ⟨v, w, hv, hs, hh, hm⟩
        rcases List.mem_cons.mp hv with he | hv'
        · exfalso
          have hk : id = k := congrArg Prod.fst he
          rw [hk, hget] at hs
          exact Option.noConfusion hs
        · exact ⟨v, w, hv', hs, hh, hm⟩
    · dsimp only
      by_cases hcond : od.contentHash ≠ d.contentHash ∧
          effModified od < effModified d
      · rw [if_pos hcond]
        dsimp only
        rw [List.mem_cons]
        constructor
        · rintro (rfl | h)
          · exact ⟨d, od, List.mem_cons_self _ _, hget, hcond.1, hcond.2⟩
          · obtain ⟨v, w, hv, hs, hh, hm⟩ := (ih id).mp h
            exact ⟨v, w, List.mem_cons_of_mem _ hv, hs, hh, hm⟩
        · rintro ⟨v, w, hv, hs, hh, hm⟩
          rcases List.mem_cons.mp hv with he | hv'
          · left
            exact congrArg Prod.fst he
          · right
            exact (ih id).mpr ⟨v, w, hv', hs, hh, hm⟩
      · rw [if_neg hcond]
        rw [ih id]
        constructor
        · rintro ⟨v, w, hv, hs, hh, hm⟩
          exact ⟨v, w, List.mem_cons_of_mem _ hv, hs, hh, hm⟩
        · rintro ⟨v, w, hv, hs, hh, hm⟩
          rcases List.mem_cons.mp hv with he | hv'
          · exfalso
            have hk : id = k := congrArg Prod.fst he
            have hd : d = v := (congrArg Prod.snd he).symm
            rw [hk, hget] at hs
            obtain rfl := Option.some.inj hs
            subst hd
            exact hcond ⟨hh, hm⟩
          · exact ⟨v, w, hv', hs, hh, hm⟩

/-- C2. computeMessageDiff returns exactly: missing ids are the ids in
their digests and not in ours, extra ids are the ids in ours and not in
theirs, outdated ids are the ids present on both sides whose content
hashes differ and whose their-side effective modification time (the
modifiedDate when present and non zero, else the createdDate, mirroring
the JS expression modifiedDate or createdDate) is strictly newer; an id
whose hashes differ but whose their side is not strictly newer lands in
none of the three sets. Stated for manifests with pairwise distinct
digest ids, which every produced manifest satisfies. -/
theorem computeMessageDiff_spec (ourManifest theirManifest : SyncManifest)
    (hour : (ourManifest.digests.map (·.messageId)).Nodup)
    (htheir : (theirManifest.digests.map (·.messageId)).Nodup) :
    (∀ id, id ∈ (computeMessageDiff ourManifest theirManifest).missingIds ↔
      (id ∈ theirManifest.digests.map (·.messageId) ∧
       id ∉ ourManifest.digests.map (·.messageId))) ∧
    (∀ id, id ∈ (computeMessageDiff ourManifest theirManifest).extraIds ↔
      (id ∈ ourManifest.digests.map (·.messageId) ∧
       id ∉ theirManifest.digests.map (·.messageId))) ∧
    (∀ id, id ∈ (computeMessageDiff ourManifest theirManifest).outdatedIds ↔
      ∃ dt ∈ theirManifest.digests, ∃ dr ∈ ourManifest.digests,
        dt.messageId = id ∧ dr.messageId = id ∧
        dr.contentHash ≠ dt.contentHash ∧ effModified dr < effModified dt) ∧
    (∀ id dt dr, dt ∈ theirManifest.digests → dr ∈ ourManifest.digests →
      dt.messageId = id → dr.messageId = id →
      dr.contentHash ≠ dt.contentHash → ¬effModified dr < effModified dt →
      id ∉ (computeMessageDiff ourManifest theirManifest).missingIds ∧
      id ∉ (computeMessageDiff ourManifest theirManifest).outdatedIds ∧
      id ∉ (computeMessageDiff ourManifest theirManifest).extraIds) := by
  have home : (JsMap.ofList (ourManifest.digests.map (fun d => (d.messageId, d)))).entries
      = ourManifest.digests.map (fun d => (d.messageId, d)) :=
    JsMap.ofList_entries_of_nodup _ (by rw [List.map_map]; exact hour)
  have htme : (JsMap.ofList (theirManifest.digests.map (fun d => (d.messageId, d)))).entries
      = theirManifest.digests.map (fun d => (d.messageId, d)) :=
    JsMap.ofList_entries_of_nodup _ (by rw [List.map_map]; exact htheir)
  have homk : ((JsMap.ofList (ourManifest.digests.map
      (fun d => (d.messageId, d)))).entries.map Prod.fst).Nodup := by
    rw [home, List.map_map]
    exact hour
  have htmk : ((JsMap.ofList (theirManifest.digests.map
      (fun d => (d.messageId, d)))).entries.map Prod.fst).Nodup := by
    rw [htme, List.map_map]
    exact htheir
  have hget_none : ∀ id,
      (JsMap.ofList (ourManifest.digests.map (fun d => (d.messageId, d)))).get id = none ↔
        id ∉ ourManifest.digests.map (·.messageId) := by
    intro id
    rw [JsMap.get_eq_none_iff, home]
    constructor
    · intro h hmem
      obtain ⟨d, hd, hid⟩ := List.mem_map.mp hmem
      exact h d (mem_digestKeyed.mpr ⟨hd, hid⟩)
    · intro h v hv
      obtain ⟨hd, hid⟩ := mem_digestKeyed.mp hv
      exact h (List.mem_map.mpr ⟨v, hd, hid⟩)
  have hget_some_our : ∀ id od,
      (JsMap.ofList (ourManifest.digests.map (fun d => (d.messageId, d)))).get id
        = some od ↔ (od ∈ ourManifest.digests ∧ od.messageId = id) := by
    intro id od
    constructor
    · intro h
      have := JsMap.get_eq_some_mem h
      rw [home] at this
      exact mem_digestKeyed.mp this
    · rintro ⟨hd, hid⟩
      exact JsMap.get_of_mem_of_nodup homk (by rw [home]; exact mem_digestKeyed.mpr ⟨hd, hid⟩)
  have hget_some_their : ∀ id od,
      (JsMap.ofList (theirManifest.digests.map (fun d => (d.messageId, d)))).get id
        = some od ↔ (od ∈ theirManifest.digests ∧ od.messageId = id) := by
    intro id od
    constructor
    · intro h
      have := JsMap.get_eq_some_mem h
      rw [htme] at this
      exact mem_digestKeyed.mp this
    · rintro ⟨hd, hid⟩
      exact JsMap.get_of_mem_of_nodup htmk (by rw [htme]; exact mem_digestKeyed.mpr ⟨hd, hid⟩)
  have hhas_their : ∀ id,
      (JsMap.ofList (theirManifest.digests.map (fun d => (d.messageId, d)))).has id
        = false ↔ id ∉ theirManifest.digests.map (·.messageId) := by
    intro id
    constructor
    · intro h hmem
      obtain ⟨d, hd, hid⟩ := List.mem_map.mp hmem
      have : (JsMap.ofList (theirManifest.digests.map (fun d => (d.messageId, d)))).has id
          = true := by
        rw [JsMap.has_iff_exists, htme]
        exact ⟨d, mem_digestKeyed.mpr ⟨hd, hid⟩⟩
      rw [h] at this
      exact Bool.noConfusion this
    · intro h
      rcases hb : (JsMap.ofList (theirManifest.digests.map
          (fun d => (d.messageId, d)))).has id with _ | _
      · exact hb
      · exfalso
        obtain ⟨v, hv⟩ := JsMap.has_iff_exists.mp hb
        rw [htme] at hv
        obtain ⟨hd, hid⟩ := mem_digestKeyed.mp hv
        exact h (List.mem_map.mpr ⟨v, hd, hid⟩)
  have hmiss : (computeMessageDiff ourManifest theirManifest).missingIds =
      (messageDiffLoop (JsMap.ofList (ourManifest.digests.map (fun d => (d.messageId, d))))
        (JsMap.ofList (theirManifest.digests.map (fun d => (d.messageId, d)))).entries).1 := rfl
  have houtd : (computeMessageDiff ourManifest theirManifest).outdatedIds =
      (messageDiffLoop (JsMap.ofList (ourManifest.digests.map (fun d => (d.messageId, d))))
        (JsMap.ofList (theirManifest.digests.map (fun d => (d.messageId, d)))).entries).2 := rfl
  have hextra : (computeMessageDiff ourManifest theirManifest).extraIds =
      (((JsMap.ofList (ourManifest.digests.map (fun d => (d.messageId, d)))).entries.filter
        (fun e => !(JsMap.ofList (theirManifest.digests.map
          (fun d => (d.messageId, d)))).has e.1)).map (·.1)) := rfl
  have iff1 : ∀ id, id ∈ (computeMessageDiff ourManifest theirManifest).missingIds ↔
      (id ∈ theirManifest.digests.map (·.messageId) ∧
       id ∉ ourManifest.digests.map (·.messageId)) := by
    intro id
    rw [hmiss, messageDiffLoop_fst_mem, htme]
    constructor
    · rintro ⟨v, hv, hn⟩
      obtain ⟨hd, hid⟩ := mem_digestKeyed.mp hv
      exact ⟨List.mem_map.mpr ⟨v, hd, hid⟩, (hget_none id).mp hn⟩
    · rintro ⟨hmem, hnot⟩
      obtain ⟨d, hd, hid⟩ := List.mem_map.mp hmem
      exact ⟨d, mem_digestKeyed.mpr ⟨hd, hid⟩, (hget_none id).mpr hnot⟩
  have iff2 : ∀ id, id ∈ (computeMessageDiff ourManifest theirManifest).extraIds ↔
      (id ∈ ourManifest.digests.map (·.messageId) ∧
       id ∉ theirManifest.digests.map (·.messageId)) := by
    intro id
    rw [hextra, home]
    constructor
    · intro h
      obtain ⟨e, he, hid⟩ := List.mem_map.mp h
      obtain ⟨hmem, hpred⟩ := List.mem_filter.mp he
      obtain ⟨k, v⟩ := e
      have hk : id = k := hid.symm
      subst hk
      obtain ⟨hd, hvid⟩ := mem_digestKeyed.mp hmem
      refine ⟨List.mem_map.mpr ⟨v, hd, hvid⟩, ?_⟩
      apply (hhas_their id).mp
      rcases hb : (JsMap.ofList (theirManifest.digests.map
          (fun d => (d.messageId, d)))).has id with _ | _
      · exact hb
      · rw [hb] at hpred
        exact Bool.noConfusion hpred
    · rintro ⟨hmem, hnot⟩
      obtain ⟨d, hd, hid⟩ := List.mem_map.mp hmem
      refine List.mem_map.mpr ⟨(id, d), List.mem_filter.mpr ⟨mem_digestKeyed.mpr ⟨hd, hid⟩, ?_⟩, rfl⟩
      rw [(hhas_their id).mpr hnot]
      rfl
  have iff3 : ∀ id, id ∈ (computeMessageDiff ourManifest theirManifest).outdatedIds ↔
      ∃ dt ∈ theirManifest.digests, ∃ dr ∈ ourManifest.digests,
        dt.messageId = id ∧ dr.messageId = id ∧
        dr.contentHash ≠ dt.contentHash ∧ effModified dr < effModified dt := by
    intro id
    rw [houtd, messageDiffLoop_snd_mem, htme]
    constructor
    · rintro ⟨v, od, hv, hs, hh, hm⟩
      obtain ⟨hd, hid⟩ := mem_digestKeyed.mp hv
      obtain ⟨hod, hodid⟩ := (hget_some_our id od).mp hs
      exact ⟨v, hd, od, hod, hid, hodid, hh, hm⟩
    · rintro ⟨dt, hdt, dr, hdr, hid1, hid2, hh, hm⟩
      exact ⟨dt, dr, mem_digestKeyed.mpr ⟨hdt, hid1⟩,
        (hget_some_our id dr).mpr ⟨hdr, hid2⟩, hh, hm⟩
  refine ⟨iff1, iff2, iff3, ?_⟩
  intro id dt dr hdt hdr hid1 hid2 hh hnm
  refine ⟨?_, ?_, ?_⟩
  · intro hmem
    exact ((iff1 id).mp hmem).2 (List.mem_map.mpr ⟨dr, hdr, hid2⟩)
  · intro hmem
    obtain ⟨dt', hdt', dr', hdr', hid1', hid2', hh', hm'⟩ := (iff3 id).mp hmem
    have hdteq : dt' = dt := by
      have h1 := (hget_some_their id dt').mpr ⟨hdt', hid1'⟩
      have h2 := (hget_some_their id dt).mpr ⟨hdt, hid1⟩
      exact Option.some.inj (h1.symm.trans h2)
    have hdreq : dr' = dr := by
      have h1 := (hget_some_our id dr').mpr ⟨hdr', hid2'⟩
      have h2 := (hget_some_our id dr).mpr ⟨hdr, hid2⟩
      exact Option.some.inj (h1.symm.trans h2)
    rw [hdteq, hdreq] at hm'
    exact hnm hm'
  · intro hmem
    exact ((iff2 id).mp hmem).2 (List.mem_map.mpr ⟨dt, hdt, hid1⟩)

/-- Witness for C2 at concrete manifests: ours holds x and y, theirs
holds a conflicting newer y and a fresh z, so y is outdated, z is
missing, and x is extra. -/
theorem computeMessageDiff_spec_witness :
    (sampleOurManifest.digests.map (·.messageId)).Nodup ∧
    (sampleTheirManifest.digests.map (·.messageId)).Nodup ∧
    (∀ id, id ∈ (computeMessageDiff sampleOurManifest sampleTheirManifest).missingIds ↔
      (id ∈ sampleTheirManifest.digests.map (·.messageId) ∧
       id ∉ sampleOurManifest.digests.map (·.messageId))) :=
  ⟨by decide, by decide,
    (computeMessageDiff_spec sampleOurManifest sampleTheirManifest
      (by decide) (by decide)).1⟩
